import Mathlib

/-!
Verification of the balance-and-lifecycle engine of the Dead-Simple-Budget
envelope-budgeting application (src/app.js), as a shallow embedding in Lean.

Modelling conventions, shared by every definition below:

* JS integer cent amounts are `Int`.  All amounts in the source are produced
  by `dollarsToCents` (multiply by 100, round); whenever the source converts
  an integer cent value to dollars (`cents / 100`) and immediately back
  through `dollarsToCents`, the round trip is the identity on integer cents,
  so such round trips are elided and the embedding passes cent values
  directly.
* A JS field that is `null`/absent is `Option.none`.  Envelope and
  transaction ids constructed by the program are nonempty strings, so JS
  truthiness tests on ids (`if (tx.fromEnvelopeId)`) coincide with
  `Option.isSome`.
* JS object mutation through a reference obtained by `Array.find` is
  modelled by rebuilding the list with the first matching element replaced
  (`modifyFirstEnv` below); `Array.findIndex` + `splice`/index assignment on
  transactions is modelled the same way.
* Nondeterministic externals (fresh ids from `crypto.randomUUID`, the clock,
  and `confirm` dialogs) are passed in as explicit parameters.
* Rendering, persistence (`saveState`, `localStorage`) and DOM wiring are
  external collaborators with no effect on the state aggregate; they are
  dropped.
-/

/-- Envelope record, mirroring the `Envelope` class of src/app.js. -/
structure Envelope where
  id : String
  name : String
  targetCents : Int
  balanceCents : Int
  isIncome : Bool
  isOverflow : Bool
  isCreditCard : Bool
  isActive : Bool
deriving Repr, DecidableEq

/-- Transaction record, mirroring the `Transaction` class of src/app.js. -/
structure Transaction where
  id : String
  timestamp : String
  fromEnvelopeId : Option String
  toEnvelopeId : Option String
  amountCents : Int
  note : String
deriving Repr, DecidableEq

/-- Process state aggregate, mirroring the `State` class of src/app.js
(`settings` is inlined to its single field). -/
structure BudgetState where
  envelopes : List Envelope
  transactions : List Transaction
  bankBalanceCents : Int
  transactionRetentionDays : Int
deriving Repr, DecidableEq

/-- Mutation of the first envelope in the list whose id is `eid`, the pure
counterpart of `state.envelopes.find(e => e.id === eid)` followed by an
in-place field assignment.  When no envelope matches, the list is unchanged
(the JS code guards with `if (found)`). -/
def modifyFirstEnv (eid : String) (f : Envelope → Envelope) : List Envelope → List Envelope
  | [] => []
  | e :: rest => if e.id = eid then f e :: rest else e :: modifyFirstEnv eid f rest

/-- Adding `d` to the balance of the first envelope whose id is `eid`; the
building block of `applyTransactionToBalances` (the JS statements
`from.balanceCents -= sign * tx.amountCents` and
`to.balanceCents += sign * tx.amountCents`, with the sign folded into `d`
by the caller). -/
def addToBalanceFirst (eid : String) (d : Int) : List Envelope → List Envelope :=
  modifyFirstEnv eid (fun e => { e with balanceCents := e.balanceCents + d })

/-- Guarded single-envelope balance change: the body of each of the two
`if (tx.fromEnvelopeId) { ... }` / `if (tx.toEnvelopeId) { ... }` blocks of
`applyTransactionToBalances` in src/app.js (an absent id is a no-op). -/
def applyOptId (oid : Option String) (d : Int) (envs : List Envelope) : List Envelope :=
  match oid with
  | none => envs
  | some i => addToBalanceFirst i d envs

/-- The balance application engine `applyTransactionToBalances(tx, direction)`
of src/app.js: if `fromEnvelopeId` resolves, that envelope's balance
decreases by `direction * amountCents`; then, if `toEnvelopeId` resolves,
that envelope's balance increases by `direction * amountCents`; unresolved
ids are skipped. -/
def applyTransactionToBalances (tx : Transaction) (direction : Int)
    (envs : List Envelope) : List Envelope :=
  applyOptId tx.toEnvelopeId (direction * tx.amountCents)
    (applyOptId tx.fromEnvelopeId (-(direction * tx.amountCents)) envs)

@[simp]
theorem applyOptId_none (d : Int) (envs : List Envelope) :
    applyOptId none d envs = envs := rfl

@[simp]
theorem applyOptId_some (i : String) (d : Int) (envs : List Envelope) :
    applyOptId (some i) d envs = addToBalanceFirst i d envs := rfl

@[simp]
theorem modifyFirstEnv_nil (eid : String) (f : Envelope → Envelope) :
    modifyFirstEnv eid f [] = [] := rfl

theorem modifyFirstEnv_cons (eid : String) (f : Envelope → Envelope)
    (e : Envelope) (rest : List Envelope) :
    modifyFirstEnv eid f (e :: rest) =
      if e.id = eid then f e :: rest else e :: modifyFirstEnv eid f rest := rfl

theorem modifyFirstEnv_comm (a b : String) (f g : Envelope → Envelope)
    (hf : ∀ e, (f e).id = e.id) (hg : ∀ e, (g e).id = e.id)
    (hfg : ∀ e, f (g e) = g (f e)) (l : List Envelope) :
    modifyFirstEnv a f (modifyFirstEnv b g l) = modifyFirstEnv b g (modifyFirstEnv a f l) := by
  induction l with
  | nil => rfl
  | cons e rest ih =>
    by_cases hb : e.id = b
    · by_cases ha : e.id = a
      · rw [modifyFirstEnv_cons, if_pos hb, modifyFirstEnv_cons, if_pos ((hg e).trans ha),
          modifyFirstEnv_cons, if_pos ha, modifyFirstEnv_cons, if_pos ((hf e).trans hb), hfg]
      · rw [modifyFirstEnv_cons, if_pos hb, modifyFirstEnv_cons,
          if_neg (fun h => ha ((hg e).symm.trans h)),
          modifyFirstEnv_cons, if_neg ha, modifyFirstEnv_cons, if_pos hb]
    · by_cases ha : e.id = a
      · rw [modifyFirstEnv_cons, if_neg hb, modifyFirstEnv_cons, if_pos ha,
          modifyFirstEnv_cons, if_pos ha, modifyFirstEnv_cons,
          if_neg (fun h => hb ((hf e).symm.trans h))]
      · rw [modifyFirstEnv_cons, if_neg hb, modifyFirstEnv_cons, if_neg ha,
          modifyFirstEnv_cons, if_neg ha, modifyFirstEnv_cons, if_neg hb, ih]

theorem modifyFirstEnv_fuse (a : String) (f g : Envelope → Envelope)
    (hf : ∀ e, (f e).id = e.id) (l : List Envelope) :
    modifyFirstEnv a g (modifyFirstEnv a f l) = modifyFirstEnv a (fun e => g (f e)) l := by
  induction l with
  | nil => rfl
  | cons e rest ih =>
    by_cases ha : e.id = a
    · rw [modifyFirstEnv_cons, if_pos ha, modifyFirstEnv_cons, if_pos ((hf e).trans ha),
        modifyFirstEnv_cons, if_pos ha]
    · rw [modifyFirstEnv_cons, if_neg ha, modifyFirstEnv_cons, if_neg ha,
        modifyFirstEnv_cons, if_neg ha, ih]

theorem modifyFirstEnv_of_eq_id (a : String) (f : Envelope → Envelope)
    (hf : ∀ e, f e = e) (l : List Envelope) :
    modifyFirstEnv a f l = l := by
  induction l with
  | nil => rfl
  | cons e rest ih =>
    by_cases ha : e.id = a
    · rw [modifyFirstEnv_cons, if_pos ha, hf]
    · rw [modifyFirstEnv_cons, if_neg ha, ih]

theorem addToBalanceFirst_comm (a b : String) (d1 d2 : Int) (l : List Envelope) :
    addToBalanceFirst a d1 (addToBalanceFirst b d2 l)
      = addToBalanceFirst b d2 (addToBalanceFirst a d1 l) := by
  unfold addToBalanceFirst
  refine modifyFirstEnv_comm a b (fun e => { e with balanceCents := e.balanceCents + d1 })
    (fun e => { e with balanceCents := e.balanceCents + d2 })
    (fun e => rfl) (fun e => rfl) (fun e => ?_) l
  simp [Envelope.mk.injEq]
  omega

theorem addToBalanceFirst_add (a : String) (d1 d2 : Int) (l : List Envelope) :
    addToBalanceFirst a d1 (addToBalanceFirst a d2 l)
      = addToBalanceFirst a (d2 + d1) l := by
  unfold addToBalanceFirst
  rw [modifyFirstEnv_fuse a (fun e => { e with balanceCents := e.balanceCents + d2 })
    (fun e => { e with balanceCents := e.balanceCents + d1 }) (fun e => rfl)]
  apply congrFun
  apply congrArg
  funext e
  simp [Envelope.mk.injEq]
  omega

theorem addToBalanceFirst_zero (a : String) (l : List Envelope) :
    addToBalanceFirst a 0 l = l := by
  unfold addToBalanceFirst
  apply modifyFirstEnv_of_eq_id
  intro e
  simp only [Int.add_zero]

/-- Generalized rollback: applying a transaction with direction `d` and then
with direction `-d` restores the envelope list exactly. -/
theorem applyTransactionToBalances_cancel (tx : Transaction) (d : Int)
    (envs : List Envelope) :
    applyTransactionToBalances tx (-d) (applyTransactionToBalances tx d envs) = envs := by
  cases hf : tx.fromEnvelopeId with
  | none =>
    cases ht : tx.toEnvelopeId with
    | none => simp [applyTransactionToBalances, hf, ht]
    | some tid =>
      simp only [applyTransactionToBalances, hf, ht, applyOptId_none, applyOptId_some,
        addToBalanceFirst_add]
      have h1 : d * tx.amountCents + -d * tx.amountCents = 0 := by ring
      rw [h1, addToBalanceFirst_zero]
  | some fid =>
    cases ht : tx.toEnvelopeId with
    | none =>
      simp only [applyTransactionToBalances, hf, ht, applyOptId_none, applyOptId_some,
        addToBalanceFirst_add]
      have h2 : -(d * tx.amountCents) + -(-d * tx.amountCents) = 0 := by ring
      rw [h2, addToBalanceFirst_zero]
    | some tid =>
      simp only [applyTransactionToBalances, hf, ht, applyOptId_none, applyOptId_some]
      rw [addToBalanceFirst_comm fid tid (-(-d * tx.amountCents)) (d * tx.amountCents),
        addToBalanceFirst_add, addToBalanceFirst_add]
      have h1 : d * tx.amountCents + -d * tx.amountCents = 0 := by ring
      have h2 : -(d * tx.amountCents) + -(-d * tx.amountCents) = 0 := by ring
      rw [h1, h2, addToBalanceFirst_zero, addToBalanceFirst_zero]

/-- C1: for every transaction and every envelope list, applying
`applyTransactionToBalances(tx, +1)` and then `applyTransactionToBalances(tx, -1)`
restores every envelope (in particular every touched envelope's
`balanceCents`) to its exact prior value, in all combinations of resolvable
and unresolvable `fromEnvelopeId`/`toEnvelopeId` (unresolvable ids are
skipped by `addToBalanceFirst` on no match). -/
theorem apply_then_rollback_exact (tx : Transaction) (envs : List Envelope) :
    applyTransactionToBalances tx (-1) (applyTransactionToBalances tx 1 envs) = envs := by
  have h := applyTransactionToBalances_cancel tx 1 envs
  simpa using h

theorem rollback_then_apply_exact (tx : Transaction) (envs : List Envelope) :
    applyTransactionToBalances tx 1 (applyTransactionToBalances tx (-1) envs) = envs := by
  have h := applyTransactionToBalances_cancel tx (-1) envs
  simpa using h

theorem find?_modifyFirstEnv_same (eid : String) (f : Envelope → Envelope)
    (hf : ∀ x, (f x).id = x.id) (l : List Envelope) :
    (modifyFirstEnv eid f l).find? (fun x => x.id == eid)
      = (l.find? (fun x => x.id == eid)).map f := by
  induction l with
  | nil => rfl
  | cons e rest ih =>
    by_cases ha : e.id = eid
    · rw [modifyFirstEnv_cons, if_pos ha]
      rw [List.find?_cons_of_pos _ (by simp [hf, ha]),
        List.find?_cons_of_pos _ (by simp [ha]), Option.map_some']
    · rw [modifyFirstEnv_cons, if_neg ha]
      rw [List.find?_cons_of_neg _ (by simp [ha]),
        List.find?_cons_of_neg _ (by simp [ha]), ih]

theorem find?_modifyFirstEnv_other (eid fid : String) (f : Envelope → Envelope)
    (hf : ∀ x, (f x).id = x.id) (hne : fid ≠ eid) (l : List Envelope) :
    (modifyFirstEnv eid f l).find? (fun x => x.id == fid)
      = l.find? (fun x => x.id == fid) := by
  induction l with
  | nil => rfl
  | cons e rest ih =>
    by_cases ha : e.id = eid
    · rw [modifyFirstEnv_cons, if_pos ha]
      by_cases hb : e.id = fid
      · exact absurd (hb ▸ ha : fid = eid) hne
      · rw [List.find?_cons_of_neg _ (by simp [hf, hb]),
          List.find?_cons_of_neg _ (by simp [hb])]
    · rw [modifyFirstEnv_cons, if_neg ha]
      by_cases hb : e.id = fid
      · rw [List.find?_cons_of_pos _ (by simp [hb]),
          List.find?_cons_of_pos _ (by simp [hb])]
      · rw [List.find?_cons_of_neg _ (by simp [hb]),
          List.find?_cons_of_neg _ (by simp [hb]), ih]

theorem map_proj_modifyFirstEnv {α : Type} (eid : String) (f : Envelope → Envelope)
    (proj : Envelope → α) (h : ∀ e, proj (f e) = proj e) (l : List Envelope) :
    (modifyFirstEnv eid f l).map proj = l.map proj := by
  induction l with
  | nil => rfl
  | cons e rest ih =>
    by_cases ha : e.id = eid
    · rw [modifyFirstEnv_cons, if_pos ha, List.map_cons, List.map_cons, h]
    · rw [modifyFirstEnv_cons, if_neg ha, List.map_cons, List.map_cons, ih]

/-- Reactivation of the first envelope with id `eid` when it is inactive:
the body of the `forEach` in `deleteTransaction` of src/app.js
(`if (env && !env.isActive) env.isActive = true`). -/
def reactivateFirst (eid : String) : List Envelope → List Envelope :=
  modifyFirstEnv eid (fun e => if e.isActive then e else { e with isActive := true })

/-- One arm of the `[tx.fromEnvelopeId, tx.toEnvelopeId].forEach` loop in
`deleteTransaction` of src/app.js: a null id is skipped. -/
def reactivateOpt (oid : Option String) (envs : List Envelope) : List Envelope :=
  match oid with
  | none => envs
  | some i => reactivateFirst i envs

@[simp]
theorem reactivateOpt_none (envs : List Envelope) : reactivateOpt none envs = envs := rfl

@[simp]
theorem reactivateOpt_some (i : String) (envs : List Envelope) :
    reactivateOpt (some i) envs = reactivateFirst i envs := rfl

theorem reactivate_fun_id (e : Envelope) :
    ((if e.isActive then e else { e with isActive := true }) : Envelope).id = e.id := by
  by_cases h : e.isActive <;> simp [h]

theorem reactivate_fun_active (e : Envelope) :
    ((if e.isActive then e else { e with isActive := true }) : Envelope).isActive = true := by
  by_cases h : e.isActive <;> simp [h]

/-- Removal of the first transaction whose id is `tid`: the
`findIndex` + `splice(index, 1)` pair in `deleteTransaction` of src/app.js. -/
def removeFirstTx (tid : String) : List Transaction → List Transaction
  | [] => []
  | t :: rest => if t.id = tid then rest else t :: removeFirstTx tid rest

/-- Replacement of the first transaction whose id is `tid`: the
`findIndex` + `state.transactions[index] = newTx` pair in
`updateTransaction` of src/app.js. -/
def replaceFirstTx (tid : String) (newTx : Transaction) : List Transaction → List Transaction
  | [] => []
  | t :: rest => if t.id = tid then newTx :: rest else t :: replaceFirstTx tid newTx rest

/-- The ledger operation `addTransaction` of src/app.js.  The decimal
`amountDollars` argument is pre-converted to integer cents (`amountCents`
here); a converted amount of 0 is JS-falsy and aborts the call.  The fresh
id and timestamp produced by `crypto.randomUUID()` / `new Date()` are
passed in as `txid` / `timestamp`.  With `log = false` the balance effect
persists but no ledger entry is appended. -/
def addTransaction (fromId toId : Option String) (amountCents : Int) (note : String)
    (log : Bool) (txid timestamp : String) (s : BudgetState) : BudgetState :=
  if amountCents = 0 then s
  else
    let tx : Transaction :=
      { id := txid, timestamp := timestamp, fromEnvelopeId := fromId,
        toEnvelopeId := toId, amountCents := amountCents, note := note }
    { s with
      envelopes := applyTransactionToBalances tx 1 s.envelopes,
      transactions := if log then s.transactions ++ [tx] else s.transactions }

/-- Patch argument of `updateTransaction` in src/app.js.  An outer `none`
models a field that is `undefined` in the JS `updates` object (the source
tests `!== undefined`); `amountCents` carries the already-converted
`dollarsToCents(updates.amountDollars)`. -/
structure TxPatch where
  fromEnvelopeId : Option (Option String)
  toEnvelopeId : Option (Option String)
  amountCents : Option Int
  note : Option String
deriving Repr, DecidableEq

/-- The ledger operation `updateTransaction(id, updates)` of src/app.js:
no-op when the id does not resolve; otherwise rolls back the old
transaction (direction -1), builds the updated transaction keeping `id` and
the original `timestamp`, applies it (direction +1), and replaces the
stored entry in place. -/
def updateTransaction (tid : String) (p : TxPatch) (s : BudgetState) : BudgetState :=
  match s.transactions.find? (fun t => t.id == tid) with
  | none => s
  | some oldTx =>
    let newTx : Transaction :=
      { id := oldTx.id, timestamp := oldTx.timestamp,
        fromEnvelopeId := p.fromEnvelopeId.getD oldTx.fromEnvelopeId,
        toEnvelopeId := p.toEnvelopeId.getD oldTx.toEnvelopeId,
        amountCents := p.amountCents.getD oldTx.amountCents,
        note := p.note.getD oldTx.note }
    { s with
      envelopes := applyTransactionToBalances newTx 1
        (applyTransactionToBalances oldTx (-1) s.envelopes),
      transactions := replaceFirstTx tid newTx s.transactions }

/-- The ledger operation `deleteTransaction(id)` of src/app.js: no-op when
the id does not resolve; otherwise reactivates any inactive envelope
referenced by the transaction's `fromEnvelopeId` / `toEnvelopeId`, rolls
back the balance effect (direction -1), and removes the entry from the
list. -/
def deleteTransaction (tid : String) (s : BudgetState) : BudgetState :=
  match s.transactions.find? (fun t => t.id == tid) with
  | none => s
  | some tx =>
    let envs2 := reactivateOpt tx.toEnvelopeId (reactivateOpt tx.fromEnvelopeId s.envelopes)
    { s with
      envelopes := applyTransactionToBalances tx (-1) envs2,
      transactions := removeFirstTx tid s.transactions }

theorem exists_active_modifyFirstEnv (i eid : String) (f : Envelope → Envelope)
    (hid : ∀ x, (f x).id = x.id) (hact : ∀ x, x.isActive = true → (f x).isActive = true)
    (l : List Envelope)
    (h : ∃ e2, l.find? (fun x => x.id == i) = some e2 ∧ e2.isActive = true) :
    ∃ e2, (modifyFirstEnv eid f l).find? (fun x => x.id == i) = some e2 ∧
      e2.isActive = true := by
  obtain ⟨e2, hfind, hacte⟩ := h
  by_cases he : i = eid
  · subst he
    rw [find?_modifyFirstEnv_same i f hid, hfind]
    exact ⟨f e2, rfl, hact e2 hacte⟩
  · rw [find?_modifyFirstEnv_other eid i f hid he]
    exact ⟨e2, hfind, hacte⟩

theorem exists_active_applyOptId (i : String) (oid : Option String) (d : Int)
    (l : List Envelope)
    (h : ∃ e2, l.find? (fun x => x.id == i) = some e2 ∧ e2.isActive = true) :
    ∃ e2, (applyOptId oid d l).find? (fun x => x.id == i) = some e2 ∧
      e2.isActive = true := by
  cases oid with
  | none => exact h
  | some j =>
    rw [applyOptId_some]
    exact exists_active_modifyFirstEnv i j
      (fun e => { e with balanceCents := e.balanceCents + d })
      (fun x => rfl) (fun x hx => hx) l h

theorem exists_active_apply (i : String) (tx : Transaction) (d : Int)
    (l : List Envelope)
    (h : ∃ e2, l.find? (fun x => x.id == i) = some e2 ∧ e2.isActive = true) :
    ∃ e2, (applyTransactionToBalances tx d l).find? (fun x => x.id == i) = some e2 ∧
      e2.isActive = true := by
  unfold applyTransactionToBalances
  exact exists_active_applyOptId i _ _ _ (exists_active_applyOptId i _ _ _ h)

theorem exists_active_reactivateOpt (i : String) (oid : Option String)
    (l : List Envelope)
    (h : ∃ e2, l.find? (fun x => x.id == i) = some e2 ∧ e2.isActive = true) :
    ∃ e2, (reactivateOpt oid l).find? (fun x => x.id == i) = some e2 ∧
      e2.isActive = true := by
  cases oid with
  | none => exact h
  | some j =>
    rw [reactivateOpt_some]
    exact exists_active_modifyFirstEnv i j _ reactivate_fun_id
      (fun x _ => reactivate_fun_active x) l h

theorem exists_active_reactivateFirst_self (i : String) (e : Envelope)
    (l : List Envelope) (h : l.find? (fun x => x.id == i) = some e) :
    ∃ e2, (reactivateFirst i l).find? (fun x => x.id == i) = some e2 ∧
      e2.isActive = true := by
  unfold reactivateFirst
  rw [find?_modifyFirstEnv_same i _ reactivate_fun_id, h, Option.map_some']
  exact ⟨_, rfl, reactivate_fun_active e⟩

theorem exists_active_reactivateFirst_isSome (i : String) (l : List Envelope)
    (h : (l.find? (fun x => x.id == i)).isSome) :
    ∃ e2, (reactivateFirst i l).find? (fun x => x.id == i) = some e2 ∧
      e2.isActive = true := by
  obtain ⟨e, he⟩ := Option.isSome_iff_exists.mp h
  exact exists_active_reactivateFirst_self i e l he

theorem find?_isSome_modifyFirstEnv (i eid : String) (f : Envelope → Envelope)
    (hid : ∀ x, (f x).id = x.id) (l : List Envelope)
    (h : (l.find? (fun x => x.id == i)).isSome) :
    ((modifyFirstEnv eid f l).find? (fun x => x.id == i)).isSome := by
  by_cases he : i = eid
  · subst he
    rw [find?_modifyFirstEnv_same i f hid, Option.isSome_map']
    exact h
  · rw [find?_modifyFirstEnv_other eid i f hid he]
    exact h

theorem find?_isSome_reactivateOpt (i : String) (oid : Option String)
    (l : List Envelope) (h : (l.find? (fun x => x.id == i)).isSome) :
    ((reactivateOpt oid l).find? (fun x => x.id == i)).isSome := by
  cases oid with
  | none => exact h
  | some j => exact find?_isSome_modifyFirstEnv i j _ reactivate_fun_id l h

theorem map_bal_reactivateOpt (oid : Option String) (l : List Envelope) :
    (reactivateOpt oid l).map (fun e => e.balanceCents)
      = l.map (fun e => e.balanceCents) := by
  cases oid with
  | none => rfl
  | some j =>
    refine map_proj_modifyFirstEnv j _ _ (fun e => ?_) l
    by_cases h : e.isActive <;> simp [h]

theorem removeFirstTx_length (tid : String) (l : List Transaction)
    (h : (l.find? (fun t => t.id == tid)).isSome) :
    (removeFirstTx tid l).length + 1 = l.length := by
  induction l with
  | nil => simp at h
  | cons t rest ih =>
    by_cases ht : t.id = tid
    · simp [removeFirstTx, ht]
    · rw [List.find?_cons_of_neg _ (by simp [ht])] at h
      simp only [removeFirstTx, if_neg ht, List.length_cons]
      rw [← ih h]

theorem removeFirstTx_filter_ne (tid : String) (l : List Transaction) :
    (removeFirstTx tid l).filter (fun t => !(t.id == tid))
      = l.filter (fun t => !(t.id == tid)) := by
  induction l with
  | nil => rfl
  | cons t rest ih =>
    by_cases ht : t.id = tid
    · simp [removeFirstTx, ht]
    · simp [removeFirstTx, ht, ih]

/-- C5: for every state containing a transaction with the given id (the
`find?` hypothesis), `deleteTransaction` (i) exactly reverses the
transaction's balance effect on every resolvable referenced envelope —
re-applying the transaction to the resulting envelope list restores every
`balanceCents` —, (ii) leaves each currently existing envelope referenced
by `fromEnvelopeId` / `toEnvelopeId` active in the result (reactivating it
if it was inactive), and (iii) removes exactly the first transaction with
that id from the list, keeping all transactions with other ids; if the id
does not resolve, the state is unchanged. -/
theorem deleteTransaction_spec (s : BudgetState) (tid : String) :
    (s.transactions.find? (fun t => t.id == tid) = none → deleteTransaction tid s = s) ∧
    (∀ tx, s.transactions.find? (fun t => t.id == tid) = some tx →
      ((applyTransactionToBalances tx 1 (deleteTransaction tid s).envelopes).map
          (fun e => e.balanceCents) = s.envelopes.map (fun e => e.balanceCents)) ∧
      (∀ fid e, tx.fromEnvelopeId = some fid →
          s.envelopes.find? (fun x => x.id == fid) = some e →
          ∃ e2, (deleteTransaction tid s).envelopes.find? (fun x => x.id == fid) = some e2 ∧
            e2.isActive = true) ∧
      (∀ toid e, tx.toEnvelopeId = some toid →
          s.envelopes.find? (fun x => x.id == toid) = some e →
          ∃ e2, (deleteTransaction tid s).envelopes.find? (fun x => x.id == toid) = some e2 ∧
            e2.isActive = true) ∧
      ((deleteTransaction tid s).transactions.length + 1 = s.transactions.length) ∧
      ((deleteTransaction tid s).transactions.filter (fun t => !(t.id == tid))
        = s.transactions.filter (fun t => !(t.id == tid)))) := by
  constructor
  · intro h
    simp only [deleteTransaction, h]
  · intro tx htx
    have hdel : deleteTransaction tid s =
        { s with
          envelopes := applyTransactionToBalances tx (-1)
            (reactivateOpt tx.toEnvelopeId (reactivateOpt tx.fromEnvelopeId s.envelopes)),
          transactions := removeFirstTx tid s.transactions } := by
      simp only [deleteTransaction, htx]
    refine ⟨?_, ?_, ?_, ?_, ?_⟩
    · rw [hdel]
      show (applyTransactionToBalances tx 1 (applyTransactionToBalances tx (-1) _)).map _ = _
      rw [rollback_then_apply_exact, map_bal_reactivateOpt, map_bal_reactivateOpt]
    · intro fid e hfrom hfind
      rw [hdel]
      show ∃ e2, (applyTransactionToBalances tx (-1) _).find? _ = some e2 ∧ _
      apply exists_active_apply
      apply exists_active_reactivateOpt
      rw [hfrom, reactivateOpt_some]
      exact exists_active_reactivateFirst_self fid e s.envelopes hfind
    · intro toid e hto hfind
      rw [hdel]
      show ∃ e2, (applyTransactionToBalances tx (-1) _).find? _ = some e2 ∧ _
      apply exists_active_apply
      rw [hto, reactivateOpt_some]
      exact exists_active_reactivateFirst_isSome toid _
        (find?_isSome_reactivateOpt toid tx.fromEnvelopeId s.envelopes (by rw [hfind]; rfl))
    · rw [hdel]
      exact removeFirstTx_length tid s.transactions (by rw [htx]; rfl)
    · rw [hdel]
      exact removeFirstTx_filter_ne tid s.transactions

/-- Concrete income envelope used by witness states. -/
def envIncomeW5 : Envelope :=
  { id := "inc", name := "Income", targetCents := 0, balanceCents := 500,
    isIncome := true, isOverflow := false, isCreditCard := false, isActive := true }

/-- Concrete soft-deleted envelope used by witness states. -/
def envGrocW5 : Envelope :=
  { id := "g", name := "Groceries", targetCents := 0, balanceCents := 0,
    isIncome := false, isOverflow := false, isCreditCard := false, isActive := false }

/-- Concrete auto-merge transaction used by witness states. -/
def txW5 : Transaction :=
  { id := "t1", timestamp := "2026-01-01T00:00:00.000Z", fromEnvelopeId := some "g",
    toEnvelopeId := some "inc", amountCents := 500, note := "merge" }

/-- Concrete state used by the C5 witness. -/
def stateW5 : BudgetState :=
  { envelopes := [envIncomeW5, envGrocW5], transactions := [txW5],
    bankBalanceCents := 0, transactionRetentionDays := 30 }

theorem deleteTransaction_spec_witness :
    ∃ e2, (deleteTransaction "t1" stateW5).envelopes.find? (fun x => x.id == "g") = some e2 ∧
      e2.isActive = true :=
  (((deleteTransaction_spec stateW5 "t1").2 txW5 (by decide)).2.1) "g" envGrocW5
    (by decide) (by decide)

/-- Lexicographic comparison of character lists by code point, the order JS
`<=` / `>=` uses on strings (code-unit order; identical to code-point order
on the ASCII timestamp strings involved). -/
def charListLe : List Char → List Char → Bool
  | [], _ => true
  | _ :: _, [] => false
  | c :: cs, d :: ds =>
    if c.toNat < d.toNat then true
    else if d.toNat < c.toNat then false
    else charListLe cs ds

/-- String comparison `a <= b` as performed by the JS comparison operators,
used by `pruneOldTransactions` (`tx.timestamp >= cutoffISO`). -/
def strLe (a b : String) : Bool := charListLe a.data b.data

/-- The retention pruner `pruneOldTransactions` of src/app.js.  The source
computes the cutoff from the wall clock (`new Date()`,
`setDate(getDate() - days)`, `toISOString()`); this external clock
computation is abstracted as the parameter `cutoffFor`, mapping a number of
days to the ISO-8601 string of the instant that many days before now.  The
source reads `state.settings?.transactionRetentionDays || 45`, so a JS-falsy
stored value (0 in this integer model) falls back to 45 days.  Transactions
are kept when `tx.timestamp >= cutoffISO` as strings. -/
def pruneOldTransactions (cutoffFor : Int → String) (s : BudgetState) : BudgetState :=
  let days : Int := if s.transactionRetentionDays = 0 then 45 else s.transactionRetentionDays
  let cutoffISO := cutoffFor days
  { s with transactions := s.transactions.filter (fun tx => strLe cutoffISO tx.timestamp) }

/-- C7 (amended): for every clock and every state, `pruneOldTransactions`
never changes the envelope list (hence no `balanceCents`); and whenever
`transactionRetentionDays` is nonzero it removes exactly the transactions
whose timestamp string is lexicographically strictly earlier than the
cutoff instant for `transactionRetentionDays` days (it keeps exactly those
with `cutoff ≤ timestamp`).  When the stored value is 0 the code falls back
to a 45-day window instead (see the counterexample). -/
theorem pruneOldTransactions_spec (cutoffFor : Int → String) (s : BudgetState) :
    ((pruneOldTransactions cutoffFor s).envelopes = s.envelopes) ∧
    (s.transactionRetentionDays ≠ 0 →
      (pruneOldTransactions cutoffFor s).transactions
        = s.transactions.filter
            (fun tx => strLe (cutoffFor s.transactionRetentionDays) tx.timestamp)) := by
  constructor
  · rfl
  · intro h
    simp only [pruneOldTransactions, if_neg h]

/-- Concrete clock used by the C7 counterexample and witness: day-0 cutoff
is now, day-45 cutoff is 45 days before now. -/
def cutoffW7 : Int → String :=
  fun d => if d = 0 then "2026-10-11T00:00:00.000Z" else "2026-08-27T00:00:00.000Z"

/-- Concrete transaction older than the claimed day-0 cutoff but newer than
the actual 45-day fallback cutoff. -/
def txW7 : Transaction :=
  { id := "t7", timestamp := "2026-09-15T00:00:00.000Z", fromEnvelopeId := none,
    toEnvelopeId := some "inc", amountCents := 100, note := "" }

/-- Concrete state with `transactionRetentionDays = 0` for the C7
counterexample. -/
def stateW7 : BudgetState :=
  { envelopes := [], transactions := [txW7], bankBalanceCents := 0,
    transactionRetentionDays := 0 }

/-- C7 counterexample: with `transactionRetentionDays = 0` the claim says
the cutoff is now minus 0 days, so `txW7` (timestamped in the past) must be
removed; the code instead uses the `|| 45` fallback and keeps it. -/
theorem pruneOldTransactions_retention_zero_counterexample :
    (pruneOldTransactions cutoffW7 stateW7).transactions = [txW7] ∧
    stateW7.transactions.filter
      (fun tx => strLe (cutoffW7 stateW7.transactionRetentionDays) tx.timestamp) = [] := by
  constructor
  · decide
  · decide

/-- Concrete state with a nonzero retention window for the C7 witness. -/
def stateW7b : BudgetState :=
  { envelopes := [], transactions := [txW7], bankBalanceCents := 0,
    transactionRetentionDays := 30 }

theorem pruneOldTransactions_spec_witness :
    ((pruneOldTransactions cutoffW7 stateW7b).envelopes = stateW7b.envelopes) ∧
    ((pruneOldTransactions cutoffW7 stateW7b).transactions
      = stateW7b.transactions.filter
          (fun tx => strLe (cutoffW7 stateW7b.transactionRetentionDays) tx.timestamp)) :=
  ⟨(pruneOldTransactions_spec cutoffW7 stateW7b).1,
    (pruneOldTransactions_spec cutoffW7 stateW7b).2 (by decide)⟩

/-- Core-envelope test `isCoreEnvelope(env)` of src/app.js. -/
def isCoreEnvelope (env : Envelope) : Bool := env.isIncome || env.isOverflow

/-- Membership of `eid` in the `usedIds` set built by
`cleanupUnusedEnvelopes` of src/app.js (ids referenced by a surviving
transaction's truthy `fromEnvelopeId` or `toEnvelopeId`). -/
def isReferenced (txs : List Transaction) (eid : String) : Bool :=
  txs.any (fun t => t.fromEnvelopeId == some eid || t.toEnvelopeId == some eid)

/-- The keep-predicate of the `filter` in `cleanupUnusedEnvelopes` of
src/app.js: keep core, active, nonzero-balance, or still-referenced
envelopes. -/
def keepEnvelope (txs : List Transaction) (env : Envelope) : Bool :=
  isCoreEnvelope env || env.isActive || env.balanceCents != 0 || isReferenced txs env.id

/-- The garbage collector `cleanupUnusedEnvelopes` of src/app.js. -/
def cleanupUnusedEnvelopes (s : BudgetState) : BudgetState :=
  { s with envelopes := s.envelopes.filter (keepEnvelope s.transactions) }

/-- C8: `cleanupUnusedEnvelopes` leaves the transaction list unchanged,
only ever removes envelopes (never adds), and an envelope of the state
survives if and only if it is core, active, has nonzero balance, or is
referenced by some surviving transaction — equivalently, it permanently
removes exactly the non-core, inactive, zero-balance, unreferenced
envelopes and never removes a core, active, nonzero-balance, or
still-referenced one. -/
theorem cleanupUnusedEnvelopes_spec (s : BudgetState) :
    ((cleanupUnusedEnvelopes s).transactions = s.transactions) ∧
    (∀ e, e ∈ (cleanupUnusedEnvelopes s).envelopes → e ∈ s.envelopes) ∧
    (∀ e, e ∈ s.envelopes →
      (e ∈ (cleanupUnusedEnvelopes s).envelopes ↔
        (isCoreEnvelope e = true ∨ e.isActive = true ∨ e.balanceCents ≠ 0 ∨
          isReferenced s.transactions e.id = true))) := by
  refine ⟨rfl, ?_, ?_⟩
  · intro e he
    exact (List.mem_filter.mp he).1
  · intro e he
    constructor
    · intro hmem
      have hk := (List.mem_filter.mp hmem).2
      simp only [keepEnvelope, Bool.or_eq_true, bne_iff_ne] at hk
      tauto
    · intro hdisj
      refine List.mem_filter.mpr ⟨he, ?_⟩
      simp only [keepEnvelope, Bool.or_eq_true, bne_iff_ne]
      tauto

/-- Concrete removable envelope (non-core, inactive, zero balance,
unreferenced) for the C8 witness. -/
def envW8 : Envelope :=
  { id := "z", name := "Zero", targetCents := 0, balanceCents := 0,
    isIncome := false, isOverflow := false, isCreditCard := false, isActive := false }

/-- Concrete state for the C8 witness. -/
def stateW8 : BudgetState :=
  { envelopes := [envW8], transactions := [], bankBalanceCents := 0,
    transactionRetentionDays := 30 }

theorem cleanupUnusedEnvelopes_spec_witness :
    envW8 ∈ (cleanupUnusedEnvelopes stateW8).envelopes ↔
      (isCoreEnvelope envW8 = true ∨ envW8.isActive = true ∨ envW8.balanceCents ≠ 0 ∨
        isReferenced stateW8.transactions envW8.id = true) :=
  (cleanupUnusedEnvelopes_spec stateW8).2.2 envW8 (by decide)

/-- The duplicate-demotion pass of `ensureCoreEnvelopes` in src/app.js for
the `isIncome` flag: `incomeEnvs.slice(1).forEach(e => e.isIncome = false)`
clears the flag on every income envelope after the first (in collection
order); `seen` records whether the first one has been passed. -/
def demoteExtraIncomes : Bool → List Envelope → List Envelope
  | _, [] => []
  | seen, e :: rest =>
    if e.isIncome then
      (if seen then { e with isIncome := false } else e) :: demoteExtraIncomes true rest
    else
      e :: demoteExtraIncomes seen rest

/-- The analogous duplicate-demotion pass for the `isOverflow` flag. -/
def demoteExtraOverflows : Bool → List Envelope → List Envelope
  | _, [] => []
  | seen, e :: rest =>
    if e.isOverflow then
      (if seen then { e with isOverflow := false } else e) :: demoteExtraOverflows true rest
    else
      e :: demoteExtraOverflows seen rest

/-- The `else` branch of the ensure-one blocks of `ensureCoreEnvelopes` in
src/app.js: on the first envelope found with the core flag, force
`targetCents = 0` and `isActive = true`. -/
def repairCore (p : Envelope → Bool) : List Envelope → List Envelope
  | [] => []
  | e :: rest =>
    if p e then { e with targetCents := 0, isActive := true } :: rest
    else e :: repairCore p rest

/-- One ensure-one block of `ensureCoreEnvelopes` in src/app.js: if some
envelope carries the flag, repair the first one; otherwise push a fresh
core envelope. -/
def ensureCoreSlot (p : Envelope → Bool) (fresh : Envelope) (envs : List Envelope) :
    List Envelope :=
  if envs.any p then repairCore p envs else envs ++ [fresh]

/-- The fresh Income envelope created by `ensureCoreEnvelopes`. -/
def incomeFresh : Envelope :=
  { id := "env_income", name := "Income", targetCents := 0, balanceCents := 0,
    isIncome := true, isOverflow := false, isCreditCard := false, isActive := true }

/-- The fresh Overflow envelope created by `ensureCoreEnvelopes`. -/
def overflowFresh : Envelope :=
  { id := "env_overflow", name := "Overflow", targetCents := 0, balanceCents := 0,
    isIncome := false, isOverflow := true, isCreditCard := false, isActive := true }

/-- The envelope-list effect of `ensureCoreEnvelopes` of src/app.js: demote
duplicate Income and Overflow flags (keeping the first of each, in
collection order), then ensure one repaired-or-fresh Income and one
repaired-or-fresh Overflow.  The two demotions touch disjoint fields, and
the source's mutation of the objects captured by the pre-computed filters
is equivalent to this sequential form. -/
def fixCoreEnvelopes (envs : List Envelope) : List Envelope :=
  ensureCoreSlot (fun e => e.isOverflow) overflowFresh
    (ensureCoreSlot (fun e => e.isIncome) incomeFresh
      (demoteExtraOverflows false (demoteExtraIncomes false envs)))

/-- The repair/creation pass `ensureCoreEnvelopes` of src/app.js, acting on
the state aggregate. -/
def ensureCoreEnvelopes (s : BudgetState) : BudgetState :=
  { s with envelopes := fixCoreEnvelopes s.envelopes }

theorem countP_eq_zero_of_any_false {α : Type} (p : α → Bool) (l : List α)
    (h : l.any p = false) : l.countP p = 0 := by
  induction l with
  | nil => rfl
  | cons x rest ih =>
    simp only [List.any_cons, Bool.or_eq_false_iff] at h
    simp [List.countP_cons, h.1, ih h.2]

theorem countP_pos_of_any {α : Type} (p : α → Bool) (l : List α)
    (h : l.any p = true) : 1 ≤ l.countP p := by
  induction l with
  | nil => simp at h
  | cons x rest ih =>
    simp only [List.any_cons, Bool.or_eq_true] at h
    rcases h with h | h
    · simp [List.countP_cons, h]
    · simp only [List.countP_cons]
      have := ih h
      omega

theorem any_of_countP_pos {α : Type} (p : α → Bool) (l : List α)
    (h : 1 ≤ l.countP p) : l.any p = true := by
  cases hany : l.any p with
  | true => rfl
  | false => have := countP_eq_zero_of_any_false p l hany; omega

theorem find?_none_of_any_false {α : Type} (p : α → Bool) (l : List α)
    (h : l.any p = false) : l.find? p = none := by
  induction l with
  | nil => rfl
  | cons x rest ih =>
    simp only [List.any_cons, Bool.or_eq_false_iff] at h
    rw [List.find?_cons_of_neg _ (by simp [h.1]), ih h.2]

theorem exists_find?_of_any {α : Type} (p : α → Bool) (l : List α)
    (h : l.any p = true) : ∃ e, l.find? p = some e := by
  induction l with
  | nil => simp at h
  | cons x rest ih =>
    by_cases hx : p x
    · exact ⟨x, List.find?_cons_of_pos _ hx⟩
    · simp only [List.any_cons, Bool.or_eq_true] at h
      rcases h with h | h
      · exact absurd h hx
      · obtain ⟨e, he⟩ := ih h
        exact ⟨e, by rw [List.find?_cons_of_neg _ (by simp [hx]), he]⟩

theorem find?_append_some {α : Type} (p : α → Bool) (l1 l2 : List α) (e : α)
    (h : l1.find? p = some e) : (l1 ++ l2).find? p = some e := by
  induction l1 with
  | nil => simp at h
  | cons x rest ih =>
    by_cases hx : p x
    · rw [List.find?_cons_of_pos _ hx] at h
      rw [List.cons_append, List.find?_cons_of_pos _ hx]
      exact h
    · rw [List.find?_cons_of_neg _ (by simp [hx])] at h
      rw [List.cons_append, List.find?_cons_of_neg _ (by simp [hx])]
      exact ih h

theorem find?_append_none {α : Type} (p : α → Bool) (l1 l2 : List α)
    (h : l1.find? p = none) : (l1 ++ l2).find? p = l2.find? p := by
  induction l1 with
  | nil => rfl
  | cons x rest ih =>
    by_cases hx : p x
    · rw [List.find?_cons_of_pos _ hx] at h
      exact absurd h (by simp)
    · rw [List.find?_cons_of_neg _ (by simp [hx])] at h
      rw [List.cons_append, List.find?_cons_of_neg _ (by simp [hx])]
      exact ih h

theorem demoteExtraIncomes_true_countI (l : List Envelope) :
    (demoteExtraIncomes true l).countP (fun e => e.isIncome) = 0 := by
  induction l with
  | nil => rfl
  | cons e rest ih =>
    by_cases he : e.isIncome
    · simp [demoteExtraIncomes, he, List.countP_cons, ih]
    · simp [demoteExtraIncomes, he, List.countP_cons, ih]

theorem demoteExtraIncomes_false_countI (l : List Envelope) :
    (demoteExtraIncomes false l).countP (fun e => e.isIncome) ≤ 1 := by
  induction l with
  | nil => simp [demoteExtraIncomes]
  | cons e rest ih =>
    by_cases he : e.isIncome
    · simp [demoteExtraIncomes, he, List.countP_cons, demoteExtraIncomes_true_countI]
    · simpa [demoteExtraIncomes, he, List.countP_cons] using ih

theorem demoteExtraIncomes_countO (seen : Bool) (l : List Envelope) :
    (demoteExtraIncomes seen l).countP (fun e => e.isOverflow)
      = l.countP (fun e => e.isOverflow) := by
  induction l generalizing seen with
  | nil => rfl
  | cons e rest ih =>
    by_cases he : e.isIncome
    · cases seen <;> simp [demoteExtraIncomes, he, List.countP_cons, ih]
    · simp [demoteExtraIncomes, he, List.countP_cons, ih]

theorem demoteExtraIncomes_id_of_zero (seen : Bool) (l : List Envelope)
    (h : l.countP (fun e => e.isIncome) = 0) : demoteExtraIncomes seen l = l := by
  induction l generalizing seen with
  | nil => rfl
  | cons e rest ih =>
    simp only [List.countP_cons] at h
    by_cases he : e.isIncome
    · simp [he] at h
    · simp only [he, if_false] at h
      simp [demoteExtraIncomes, he, ih seen (by omega)]

theorem demoteExtraIncomes_id (l : List Envelope)
    (h : l.countP (fun e => e.isIncome) ≤ 1) : demoteExtraIncomes false l = l := by
  induction l with
  | nil => rfl
  | cons e rest ih =>
    simp only [List.countP_cons] at h
    by_cases he : e.isIncome
    · simp only [he, if_true] at h
      simp [demoteExtraIncomes, he,
        demoteExtraIncomes_id_of_zero true rest (by omega)]
    · simp only [he, if_false] at h
      simp [demoteExtraIncomes, he, ih (by omega)]

theorem demoteExtraOverflows_true_countO (l : List Envelope) :
    (demoteExtraOverflows true l).countP (fun e => e.isOverflow) = 0 := by
  induction l with
  | nil => rfl
  | cons e rest ih =>
    by_cases he : e.isOverflow
    · simp [demoteExtraOverflows, he, List.countP_cons, ih]
    · simp [demoteExtraOverflows, he, List.countP_cons, ih]

theorem demoteExtraOverflows_false_countO (l : List Envelope) :
    (demoteExtraOverflows false l).countP (fun e => e.isOverflow) ≤ 1 := by
  induction l with
  | nil => simp [demoteExtraOverflows]
  | cons e rest ih =>
    by_cases he : e.isOverflow
    · simp [demoteExtraOverflows, he, List.countP_cons, demoteExtraOverflows_true_countO]
    · simpa [demoteExtraOverflows, he, List.countP_cons] using ih

theorem demoteExtraOverflows_countI (seen : Bool) (l : List Envelope) :
    (demoteExtraOverflows seen l).countP (fun e => e.isIncome)
      = l.countP (fun e => e.isIncome) := by
  induction l generalizing seen with
  | nil => rfl
  | cons e rest ih =>
    by_cases he : e.isOverflow
    · cases seen <;> simp [demoteExtraOverflows, he, List.countP_cons, ih]
    · simp [demoteExtraOverflows, he, List.countP_cons, ih]

theorem demoteExtraOverflows_id_of_zero (seen : Bool) (l : List Envelope)
    (h : l.countP (fun e => e.isOverflow) = 0) : demoteExtraOverflows seen l = l := by
  induction l generalizing seen with
  | nil => rfl
  | cons e rest ih =>
    simp only [List.countP_cons] at h
    by_cases he : e.isOverflow
    · simp [he] at h
    · simp only [he, if_false] at h
      simp [demoteExtraOverflows, he, ih seen (by omega)]

theorem demoteExtraOverflows_id (l : List Envelope)
    (h : l.countP (fun e => e.isOverflow) ≤ 1) : demoteExtraOverflows false l = l := by
  induction l with
  | nil => rfl
  | cons e rest ih =>
    simp only [List.countP_cons] at h
    by_cases he : e.isOverflow
    · simp only [he, if_true] at h
      simp [demoteExtraOverflows, he,
        demoteExtraOverflows_id_of_zero true rest (by omega)]
    · simp only [he, if_false] at h
      simp [demoteExtraOverflows, he, ih (by omega)]

theorem repairCore_eq_self (p : Envelope → Bool) (l : List Envelope) (e : Envelope)
    (hf : l.find? p = some e) (h0 : e.targetCents = 0) (h1 : e.isActive = true) :
    repairCore p l = l := by
  induction l with
  | nil => simp at hf
  | cons x rest ih =>
    by_cases hp : p x
    · rw [List.find?_cons_of_pos _ hp, Option.some.injEq] at hf
      subst hf
      simp only [repairCore, if_pos hp]
      cases x with
      | mk i n t b ii io ic ia => simp_all
    · rw [List.find?_cons_of_neg _ (by simp [hp])] at hf
      simp only [repairCore, if_neg hp]
      rw [ih hf]

theorem repairCore_find?_self (p : Envelope → Bool)
    (hpmod : ∀ e, p ({ e with targetCents := 0, isActive := true }) = p e)
    (l : List Envelope) (e : Envelope) (hf : l.find? p = some e) :
    (repairCore p l).find? p = some { e with targetCents := 0, isActive := true } := by
  induction l with
  | nil => simp at hf
  | cons x rest ih =>
    by_cases hp : p x
    · rw [List.find?_cons_of_pos _ hp, Option.some.injEq] at hf
      subst hf
      simp only [repairCore, if_pos hp]
      rw [List.find?_cons_of_pos _ (by rw [hpmod]; exact hp)]
    · rw [List.find?_cons_of_neg _ (by simp [hp])] at hf
      simp only [repairCore, if_neg hp]
      rw [List.find?_cons_of_neg _ (by simp [hp])]
      exact ih hf

theorem repairCore_preserves_goodFirst (p q : Envelope → Bool)
    (hpmod : ∀ e, p ({ e with targetCents := 0, isActive := true }) = p e)
    (l : List Envelope) (e : Envelope) (hf : l.find? p = some e)
    (h0 : e.targetCents = 0) (h1 : e.isActive = true) :
    ∃ e2, (repairCore q l).find? p = some e2 ∧ e2.targetCents = 0 ∧ e2.isActive = true := by
  induction l with
  | nil => simp at hf
  | cons x rest ih =>
    by_cases hq : q x
    · simp only [repairCore, if_pos hq]
      by_cases hp : p x
      · rw [List.find?_cons_of_pos _ hp, Option.some.injEq] at hf
        refine ⟨{ x with targetCents := 0, isActive := true }, ?_, rfl, rfl⟩
        rw [List.find?_cons_of_pos _ (by rw [hpmod]; exact hp)]
      · rw [List.find?_cons_of_neg _ (by simp [hp])] at hf
        refine ⟨e, ?_, h0, h1⟩
        rw [List.find?_cons_of_neg _ (by rw [hpmod]; simp [hp])]
        exact hf
    · simp only [repairCore, if_neg hq]
      by_cases hp : p x
      · rw [List.find?_cons_of_pos _ hp, Option.some.injEq] at hf
        subst hf
        exact ⟨x, by rw [List.find?_cons_of_pos _ hp], h0, h1⟩
      · rw [List.find?_cons_of_neg _ (by simp [hp])] at hf
        obtain ⟨e2, he2, h02, h12⟩ := ih hf
        exact ⟨e2, by rw [List.find?_cons_of_neg _ (by simp [hp])]; exact he2, h02, h12⟩

theorem repairCore_countP (p q : Envelope → Bool)
    (hqmod : ∀ e, q ({ e with targetCents := 0, isActive := true }) = q e)
    (l : List Envelope) :
    (repairCore p l).countP q = l.countP q := by
  induction l with
  | nil => rfl
  | cons x rest ih =>
    by_cases hp : p x
    · simp [repairCore, hp, List.countP_cons, hqmod]
    · simp [repairCore, hp, List.countP_cons, ih]

theorem ensureCoreSlot_countP_self (p : Envelope → Bool) (fresh : Envelope)
    (hpmod : ∀ e, p ({ e with targetCents := 0, isActive := true }) = p e)
    (hfresh : p fresh = true) (l : List Envelope)
    (h : l.countP p ≤ 1) :
    (ensureCoreSlot p fresh l).countP p = 1 := by
  by_cases hany : l.any p
  · rw [ensureCoreSlot, if_pos hany, repairCore_countP p p hpmod]
    have := countP_pos_of_any p l hany
    omega
  · rw [ensureCoreSlot, if_neg (by simp [hany]), List.countP_append]
    rw [countP_eq_zero_of_any_false p l (by simpa using hany)]
    simp [List.countP_cons, hfresh]

theorem ensureCoreSlot_countP_other (p q : Envelope → Bool) (fresh : Envelope)
    (hqmod : ∀ e, q ({ e with targetCents := 0, isActive := true }) = q e)
    (hfresh : q fresh = false) (l : List Envelope) :
    (ensureCoreSlot p fresh l).countP q = l.countP q := by
  by_cases hany : l.any p
  · rw [ensureCoreSlot, if_pos hany, repairCore_countP p q hqmod]
  · rw [ensureCoreSlot, if_neg (by simp [hany]), List.countP_append]
    simp [List.countP_cons, hfresh]

theorem ensureCoreSlot_goodFirst_self (p : Envelope → Bool) (fresh : Envelope)
    (hpmod : ∀ e, p ({ e with targetCents := 0, isActive := true }) = p e)
    (hfresh : p fresh = true) (h0 : fresh.targetCents = 0) (h1 : fresh.isActive = true)
    (l : List Envelope) :
    ∃ e2, (ensureCoreSlot p fresh l).find? p = some e2 ∧
      e2.targetCents = 0 ∧ e2.isActive = true := by
  by_cases hany : l.any p
  · rw [ensureCoreSlot, if_pos hany]
    obtain ⟨e, he⟩ := exists_find?_of_any p l hany
    exact ⟨_, repairCore_find?_self p hpmod l e he, rfl, rfl⟩
  · rw [ensureCoreSlot, if_neg (by simp [hany])]
    refine ⟨fresh, ?_, h0, h1⟩
    rw [find?_append_none p l _ (find?_none_of_any_false p l (by simpa using hany)),
      List.find?_cons_of_pos _ hfresh]

theorem ensureCoreSlot_goodFirst_other (p q : Envelope → Bool) (fresh : Envelope)
    (hpmod : ∀ e, p ({ e with targetCents := 0, isActive := true }) = p e)
    (l : List Envelope) (e : Envelope) (hf : l.find? p = some e)
    (h0 : e.targetCents = 0) (h1 : e.isActive = true) :
    ∃ e2, (ensureCoreSlot q fresh l).find? p = some e2 ∧
      e2.targetCents = 0 ∧ e2.isActive = true := by
  by_cases hany : l.any q
  · rw [ensureCoreSlot, if_pos hany]
    exact repairCore_preserves_goodFirst p q hpmod l e hf h0 h1
  · rw [ensureCoreSlot, if_neg (by simp [hany])]
    exact ⟨e, find?_append_some p l _ e hf, h0, h1⟩

theorem fixCore_countI (l : List Envelope) :
    (fixCoreEnvelopes l).countP (fun e => e.isIncome) = 1 := by
  unfold fixCoreEnvelopes
  rw [ensureCoreSlot_countP_other (fun e => e.isOverflow) (fun e => e.isIncome)
    overflowFresh (fun e => rfl) rfl]
  exact ensureCoreSlot_countP_self (fun e => e.isIncome) incomeFresh (fun e => rfl) rfl _
    (by rw [demoteExtraOverflows_countI]; exact demoteExtraIncomes_false_countI l)

theorem fixCore_countO (l : List Envelope) :
    (fixCoreEnvelopes l).countP (fun e => e.isOverflow) = 1 := by
  unfold fixCoreEnvelopes
  refine ensureCoreSlot_countP_self (fun e => e.isOverflow) overflowFresh
    (fun e => rfl) rfl _ ?_
  rw [ensureCoreSlot_countP_other (fun e => e.isIncome) (fun e => e.isOverflow)
    incomeFresh (fun e => rfl) rfl]
  exact demoteExtraOverflows_false_countO _

theorem fixCore_goodI (l : List Envelope) :
    ∃ e2, (fixCoreEnvelopes l).find? (fun e => e.isIncome) = some e2 ∧
      e2.targetCents = 0 ∧ e2.isActive = true := by
  unfold fixCoreEnvelopes
  obtain ⟨e1, he1, h0, h1⟩ := ensureCoreSlot_goodFirst_self (fun e => e.isIncome)
    incomeFresh (fun e => rfl) rfl rfl rfl
    (demoteExtraOverflows false (demoteExtraIncomes false l))
  exact ensureCoreSlot_goodFirst_other (fun e => e.isIncome) (fun e => e.isOverflow)
    overflowFresh (fun e => rfl) _ e1 he1 h0 h1

theorem fixCore_goodO (l : List Envelope) :
    ∃ e2, (fixCoreEnvelopes l).find? (fun e => e.isOverflow) = some e2 ∧
      e2.targetCents = 0 ∧ e2.isActive = true := by
  unfold fixCoreEnvelopes
  exact ensureCoreSlot_goodFirst_self (fun e => e.isOverflow) overflowFresh
    (fun e => rfl) rfl rfl rfl _

/-- C9: `ensureCoreEnvelopes` is idempotent — for every starting state,
running it twice in sequence yields exactly the state obtained after the
first run (the second invocation demotes nothing, repairs nothing and
creates nothing). -/
theorem ensureCoreEnvelopes_idempotent (s : BudgetState) :
    ensureCoreEnvelopes (ensureCoreEnvelopes s) = ensureCoreEnvelopes s := by
  have hfix : ∀ l : List Envelope,
      fixCoreEnvelopes (fixCoreEnvelopes l) = fixCoreEnvelopes l := by
    intro l
    have hI := fixCore_countI l
    have hO := fixCore_countO l
    obtain ⟨eI, heI, hI0, hI1⟩ := fixCore_goodI l
    obtain ⟨eO, heO, hO0, hO1⟩ := fixCore_goodO l
    have hInner : ensureCoreSlot (fun e => e.isIncome) incomeFresh (fixCoreEnvelopes l)
        = fixCoreEnvelopes l := by
      rw [ensureCoreSlot, if_pos (any_of_countP_pos _ _ (by omega))]
      exact repairCore_eq_self _ _ eI heI hI0 hI1
    have hOuter : ensureCoreSlot (fun e => e.isOverflow) overflowFresh (fixCoreEnvelopes l)
        = fixCoreEnvelopes l := by
      rw [ensureCoreSlot, if_pos (any_of_countP_pos _ _ (by omega))]
      exact repairCore_eq_self _ _ eO heO hO0 hO1
    show ensureCoreSlot (fun e => e.isOverflow) overflowFresh
        (ensureCoreSlot (fun e => e.isIncome) incomeFresh
          (demoteExtraOverflows false (demoteExtraIncomes false (fixCoreEnvelopes l))))
      = fixCoreEnvelopes l
    rw [demoteExtraIncomes_id _ (by omega), demoteExtraOverflows_id _ (by omega),
      hInner, hOuter]
  simp [ensureCoreEnvelopes, hfix]

/-- Patch argument of `updateEnvelope` in src/app.js; `none` models a field
that is `null`/absent in the JS `updates` object (the source tests
`!= null`).  `targetCents` carries the already-converted
`dollarsToCents(updates.targetDollars)`. -/
structure EnvPatch where
  name : Option String
  targetCents : Option Int
  isIncome : Option Bool
  isOverflow : Option Bool
  isCreditCard : Option Bool
  isActive : Option Bool
deriving Repr, DecidableEq

/-- Field-wise body of `updateEnvelope` in src/app.js.  `core` is computed
once from the envelope before any change (the JS
`const core = isCoreEnvelope(env)` at entry): for a core envelope `name`
and `targetCents` are untouched and `isActive` may not be set; the flag
fields are patched unconditionally. -/
def applyEnvPatch (p : EnvPatch) (env : Envelope) : Envelope :=
  let core := isCoreEnvelope env
  { env with
    name := if core then env.name else p.name.getD env.name,
    targetCents := if core then env.targetCents else p.targetCents.getD env.targetCents,
    isIncome := p.isIncome.getD env.isIncome,
    isOverflow := p.isOverflow.getD env.isOverflow,
    isCreditCard := p.isCreditCard.getD env.isCreditCard,
    isActive := if core then env.isActive else p.isActive.getD env.isActive }

/-- The registry operation `updateEnvelope(id, updates)` of src/app.js
(no-op when the id does not resolve). -/
def updateEnvelope (eid : String) (p : EnvPatch) (s : BudgetState) : BudgetState :=
  { s with envelopes := modifyFirstEnv eid (applyEnvPatch p) s.envelopes }

/-- The registry operation `addEnvelope(name, targetDollars, flags)` of
src/app.js: aborts on an empty (JS-falsy) name, otherwise pushes a new
envelope with balance 0 and the given flags (`targetCents` carries the
converted `dollarsToCents(targetDollars)`; the fresh id is passed in).
`addCreditCardEnvelope` is this with card flags and target 0. -/
def addEnvelope (name : String) (targetCents : Int)
    (fIncome fOverflow fCard fActive : Bool) (newId : String) (s : BudgetState) :
    BudgetState :=
  if name = "" then s
  else
    { s with envelopes := s.envelopes ++
        [{ id := newId, name := name, targetCents := targetCents, balanceCents := 0,
           isIncome := fIncome, isOverflow := fOverflow, isCreditCard := fCard,
           isActive := fActive }] }

/-- The registry operation `deleteEnvelope(id)` of src/app.js: no-op when
the id does not resolve, when the envelope is core, or when no Income
envelope exists; when the balance is nonzero, a `confirm` dialog
(`confirmed` here) gates the call, and on confirmation the whole balance is
moved to Income through a visible `addTransaction`; finally the envelope is
soft-deleted (`isActive = false`). -/
def deleteEnvelope (eid : String) (confirmed : Bool) (txid ts : String)
    (s : BudgetState) : BudgetState :=
  match s.envelopes.find? (fun e => e.id == eid) with
  | none => s
  | some env =>
    if isCoreEnvelope env then s
    else
      match s.envelopes.find? (fun e => e.isIncome) with
      | none => s
      | some income =>
        if env.balanceCents ≠ 0 ∧ confirmed = false then s
        else
          let s1 := if env.balanceCents ≠ 0 then
              addTransaction (some env.id) (some income.id) env.balanceCents
                ("Auto-merge from deleted envelope \"" ++ env.name ++ "\"")
                true txid ts s
            else s
          { s1 with
            envelopes := modifyFirstEnv eid (fun e => { e with isActive := false })
              s1.envelopes }

theorem find?_addToBalanceFirst_same (eid : String) (d : Int) (l : List Envelope) :
    (addToBalanceFirst eid d l).find? (fun x => x.id == eid)
      = (l.find? (fun x => x.id == eid)).map
          (fun e => { e with balanceCents := e.balanceCents + d }) :=
  find?_modifyFirstEnv_same eid
    (fun e => { e with balanceCents := e.balanceCents + d }) (fun x => rfl) l

theorem find?_addToBalanceFirst_other (eid fid : String) (d : Int) (l : List Envelope)
    (h : fid ≠ eid) :
    (addToBalanceFirst eid d l).find? (fun x => x.id == fid)
      = l.find? (fun x => x.id == fid) :=
  find?_modifyFirstEnv_other eid fid
    (fun e => { e with balanceCents := e.balanceCents + d }) (fun x => rfl) h l

theorem find?_deactivateFirst_same (eid : String) (l : List Envelope) :
    (modifyFirstEnv eid (fun e => { e with isActive := false }) l).find?
        (fun x => x.id == eid)
      = (l.find? (fun x => x.id == eid)).map (fun e => { e with isActive := false }) :=
  find?_modifyFirstEnv_same eid (fun e => { e with isActive := false }) (fun x => rfl) l

/-- C4 (amended): for every non-core envelope with nonzero balance (found
by id), with the Income envelope present (and a distinct id) and the
confirmation granted, `deleteEnvelope` appends one visible transaction with
`fromEnvelopeId` = the envelope's id, `toEnvelopeId` = the Income
envelope's id, and `amountCents` = the envelope's signed `balanceCents`
(this equals `|balanceCents|` only when the balance is positive — see the
counterexample), after which the envelope's `balanceCents` is exactly 0 and
its `isActive` is `false` (all other fields unchanged). -/
theorem deleteEnvelope_merge_spec (s : BudgetState) (eid txid ts : String)
    (env income : Envelope)
    (hfind : s.envelopes.find? (fun e => e.id == eid) = some env)
    (hcore : isCoreEnvelope env = false)
    (hinc : s.envelopes.find? (fun e => e.isIncome) = some income)
    (hne : income.id ≠ env.id)
    (hbal : env.balanceCents ≠ 0) :
    (deleteEnvelope eid true txid ts s).transactions
      = s.transactions ++
        [{ id := txid, timestamp := ts, fromEnvelopeId := some env.id,
           toEnvelopeId := some income.id, amountCents := env.balanceCents,
           note := "Auto-merge from deleted envelope \"" ++ env.name ++ "\"" }] ∧
    (deleteEnvelope eid true txid ts s).envelopes.find? (fun e => e.id == eid)
      = some { env with balanceCents := 0, isActive := false } := by
  have henvid : env.id = eid := by simpa using List.find?_some hfind
  have hdel : deleteEnvelope eid true txid ts s =
      { s with
        envelopes := modifyFirstEnv eid (fun e => { e with isActive := false })
          (applyTransactionToBalances
            { id := txid, timestamp := ts, fromEnvelopeId := some env.id,
              toEnvelopeId := some income.id, amountCents := env.balanceCents,
              note := "Auto-merge from deleted envelope \"" ++ env.name ++ "\"" } 1
            s.envelopes),
        transactions := s.transactions ++
          [{ id := txid, timestamp := ts, fromEnvelopeId := some env.id,
             toEnvelopeId := some income.id, amountCents := env.balanceCents,
             note := "Auto-merge from deleted envelope \"" ++ env.name ++ "\"" }] } := by
    simp only [deleteEnvelope, hfind, hinc]
    rw [if_neg (by simp [hcore]), if_neg (by simp), if_pos hbal]
    simp only [addTransaction, if_neg hbal, if_true]
  constructor
  · rw [hdel]
  · rw [hdel]
    show (modifyFirstEnv eid (fun e => { e with isActive := false }) _).find?
      (fun e => e.id == eid) = _
    rw [find?_deactivateFirst_same]
    unfold applyTransactionToBalances
    simp only [applyOptId_some]
    rw [henvid]
    rw [find?_addToBalanceFirst_other income.id eid _ _
      (fun h => hne ((henvid.trans h).symm))]
    rw [find?_addToBalanceFirst_same]
    rw [hfind, Option.map_some', Option.map_some']
    simp only [Option.some.injEq, Envelope.mk.injEq]
    exact ⟨henvid, trivial, trivial, by omega, trivial, trivial, trivial, trivial⟩

/-- Concrete Income envelope for the C4 state. -/
def incomeW4 : Envelope :=
  { id := "inc", name := "Income", targetCents := 0, balanceCents := 1000,
    isIncome := true, isOverflow := false, isCreditCard := false, isActive := true }

/-- Concrete non-core envelope with a negative balance for the C4
counterexample. -/
def envNegW4 : Envelope :=
  { id := "g", name := "Groceries", targetCents := 0, balanceCents := -500,
    isIncome := false, isOverflow := false, isCreditCard := false, isActive := true }

/-- Concrete state for the C4 counterexample. -/
def stateW4 : BudgetState :=
  { envelopes := [incomeW4, envNegW4], transactions := [], bankBalanceCents := 0,
    transactionRetentionDays := 30 }

/-- C4 counterexample: deleting the envelope with `balanceCents = -500`
(confirmed) stores a transaction whose `amountCents` is -500, not
`|balanceCents| = 500` as the claim states. -/
theorem deleteEnvelope_abs_counterexample :
    ((deleteEnvelope "g" true "t9" "2026-01-02T00:00:00.000Z" stateW4).transactions.map
      (fun t => t.amountCents)) = [-500] ∧ ((-500 : Int) ≠ |(-500 : Int)|) := by
  constructor
  · decide
  · decide

/-- Concrete non-core envelope with a positive balance for the C4
witness. -/
def envPosW4 : Envelope :=
  { id := "g2", name := "Garden", targetCents := 0, balanceCents := 500,
    isIncome := false, isOverflow := false, isCreditCard := false, isActive := true }

/-- Concrete state for the C4 witness. -/
def stateW4b : BudgetState :=
  { envelopes := [incomeW4, envPosW4], transactions := [], bankBalanceCents := 0,
    transactionRetentionDays := 30 }

theorem deleteEnvelope_merge_spec_witness :
    (deleteEnvelope "g2" true "t9" "T" stateW4b).transactions
      = stateW4b.transactions ++
        [{ id := "t9", timestamp := "T", fromEnvelopeId := some envPosW4.id,
           toEnvelopeId := some incomeW4.id, amountCents := envPosW4.balanceCents,
           note := "Auto-merge from deleted envelope \"" ++ envPosW4.name ++ "\"" }] ∧
    (deleteEnvelope "g2" true "t9" "T" stateW4b).envelopes.find? (fun e => e.id == "g2")
      = some { envPosW4 with balanceCents := 0, isActive := false } :=
  deleteEnvelope_merge_spec stateW4b "g2" "t9" "T" envPosW4 incomeW4
    (by decide) (by decide) (by decide) (by decide) (by decide)

/-- The target-selection predicate of `autoAllocate` in src/app.js: active,
non-core, non-card, positive target. -/
def eligibleTarget (env : Envelope) : Bool :=
  env.isActive && !(isCoreEnvelope env) && !env.isCreditCard && decide (0 < env.targetCents)

/-- The bulk allocation `autoAllocate` of src/app.js: no-op when no Income
envelope exists, when no envelope is eligible, or when the confirmation is
declined; otherwise, for each eligible target (in registry order), runs
`addTransaction` from Income to the target over the target's own
`targetCents`, with `log = false` (balances change, no ledger entry).  The
fresh ids/timestamps of these unlogged transactions are irrelevant to the
state and passed as `""`. -/
def autoAllocate (confirmed : Bool) (s : BudgetState) : BudgetState :=
  match s.envelopes.find? (fun e => e.isIncome) with
  | none => s
  | some income =>
    let targets := s.envelopes.filter eligibleTarget
    if targets = [] then s
    else if confirmed then
      targets.foldl (fun acc env =>
        addTransaction (some income.id) (some env.id) env.targetCents
          "Auto allocation" false "" "" acc) s
    else s

/-- Good-core condition on a single envelope: if it carries a core flag it
is active with target 0. -/
abbrev goodCore (e : Envelope) : Prop :=
  (e.isIncome = true ∨ e.isOverflow = true) → (e.isActive = true ∧ e.targetCents = 0)

/-- The core invariant of the spec: exactly one Income envelope, exactly
one Overflow envelope, and every core-flagged envelope is active with
target 0. -/
abbrev coreInvariant (envs : List Envelope) : Prop :=
  envs.countP (fun e => e.isIncome) = 1 ∧
  envs.countP (fun e => e.isOverflow) = 1 ∧
  ∀ e ∈ envs, goodCore e

theorem countP_modifyFirstEnv (eid : String) (f : Envelope → Envelope)
    (q : Envelope → Bool) (l : List Envelope) (hq : ∀ e, q (f e) = q e) :
    (modifyFirstEnv eid f l).countP q = l.countP q := by
  induction l with
  | nil => rfl
  | cons e rest ih =>
    by_cases ha : e.id = eid
    · rw [modifyFirstEnv_cons, if_pos ha]
      simp [List.countP_cons, hq]
    · rw [modifyFirstEnv_cons, if_neg ha]
      simp [List.countP_cons, ih]

theorem mem_modifyFirstEnv (eid : String) (f : Envelope → Envelope)
    (l : List Envelope) (x : Envelope) (hx : x ∈ modifyFirstEnv eid f l) :
    x ∈ l ∨ ∃ e, l.find? (fun y => y.id == eid) = some e ∧ x = f e := by
  induction l with
  | nil => simp at hx
  | cons y rest ih =>
    by_cases hy : y.id = eid
    · rw [modifyFirstEnv_cons, if_pos hy] at hx
      rcases List.mem_cons.mp hx with hx | hx
      · exact Or.inr ⟨y, by rw [List.find?_cons_of_pos _ (by simp [hy])], hx⟩
      · exact Or.inl (List.mem_cons_of_mem y hx)
    · rw [modifyFirstEnv_cons, if_neg hy] at hx
      rcases List.mem_cons.mp hx with hx | hx
      · exact Or.inl (hx ▸ List.mem_cons_self y rest)
      · rcases ih hx with hx2 | ⟨e, he, hfe⟩
        · exact Or.inl (List.mem_cons_of_mem y hx2)
        · exact Or.inr ⟨e, by rw [List.find?_cons_of_neg _ (by simp [hy])]; exact he, hfe⟩

theorem coreInvariant_modifyFirstEnv (eid : String) (f : Envelope → Envelope)
    (l : List Envelope)
    (hI : ∀ e, (f e).isIncome = e.isIncome) (hO : ∀ e, (f e).isOverflow = e.isOverflow)
    (hgood : ∀ e, goodCore e → goodCore (f e))
    (h : coreInvariant l) : coreInvariant (modifyFirstEnv eid f l) := by
  obtain ⟨h1, h2, h3⟩ := h
  refine ⟨?_, ?_, ?_⟩
  · rw [countP_modifyFirstEnv eid f _ l hI]; exact h1
  · rw [countP_modifyFirstEnv eid f _ l hO]; exact h2
  · intro x hx
    rcases mem_modifyFirstEnv eid f l x hx with hx | ⟨e, he, rfl⟩
    · exact h3 x hx
    · exact hgood e (h3 e (List.mem_of_find?_eq_some he))

theorem coreInvariant_addToBalanceFirst (eid : String) (d : Int) (l : List Envelope)
    (h : coreInvariant l) : coreInvariant (addToBalanceFirst eid d l) :=
  coreInvariant_modifyFirstEnv eid _ l (fun e => rfl) (fun e => rfl) (fun e hg => hg) h

theorem coreInvariant_applyOptId (oid : Option String) (d : Int) (l : List Envelope)
    (h : coreInvariant l) : coreInvariant (applyOptId oid d l) := by
  cases oid with
  | none => exact h
  | some i => exact coreInvariant_addToBalanceFirst i d l h

theorem coreInvariant_apply (tx : Transaction) (dir : Int) (l : List Envelope)
    (h : coreInvariant l) : coreInvariant (applyTransactionToBalances tx dir l) :=
  coreInvariant_applyOptId _ _ _ (coreInvariant_applyOptId _ _ _ h)

theorem coreInvariant_reactivateOpt (oid : Option String) (l : List Envelope)
    (h : coreInvariant l) : coreInvariant (reactivateOpt oid l) := by
  cases oid with
  | none => exact h
  | some i =>
    refine coreInvariant_modifyFirstEnv i _ l (fun e => ?_) (fun e => ?_) (fun e hg => ?_) h
    · by_cases ha : e.isActive <;> simp [ha]
    · by_cases ha : e.isActive <;> simp [ha]
    · by_cases ha : e.isActive
      · simp only [if_pos ha]
        exact hg
      · simp only [if_neg ha]
        intro hflag
        have h2 := hg (by simpa using hflag)
        exact absurd h2.1 ha

theorem coreInvariant_addTransaction (fromId toId : Option String) (amountCents : Int)
    (note : String) (log : Bool) (txid ts : String) (s : BudgetState)
    (h : coreInvariant s.envelopes) :
    coreInvariant (addTransaction fromId toId amountCents note log txid ts s).envelopes := by
  by_cases ha : amountCents = 0
  · simp only [addTransaction, if_pos ha]
    exact h
  · simp only [addTransaction, if_neg ha]
    exact coreInvariant_apply _ 1 _ h

theorem countP_filter_of_imp {α : Type} (q keep : α → Bool) (l : List α)
    (hkeep : ∀ e ∈ l, q e = true → keep e = true) :
    (l.filter keep).countP q = l.countP q := by
  induction l with
  | nil => rfl
  | cons x rest ih =>
    have hrest : ∀ e ∈ rest, q e = true → keep e = true :=
      fun e he => hkeep e (List.mem_cons_of_mem x he)
    by_cases hk : keep x
    · rw [List.filter_cons_of_pos hk]
      simp [List.countP_cons, ih hrest]
    · rw [List.filter_cons_of_neg (by simp [hk])]
      have hqx : q x = false := by
        cases hq : q x with
        | false => rfl
        | true => exact absurd (hkeep x (List.mem_cons_self x rest) hq) (by simp [hk])
      simp [List.countP_cons, hqx, ih hrest]

theorem eq_find?_of_countP_one {α : Type} (p : α → Bool) :
    ∀ (l : List α) (e : α), l.countP p = 1 → l.find? p = some e →
      ∀ x ∈ l, p x = true → x = e
  | [], e, hcount, hfind => by simp at hfind
  | y :: rest, e, hcount, hfind => by
    by_cases hy : p y
    · rw [List.find?_cons_of_pos _ hy, Option.some.injEq] at hfind
      have h0 : rest.countP p = 0 := by
        rw [List.countP_cons] at hcount
        simp only [hy, if_true] at hcount
        omega
      intro x hx hpx
      rcases List.mem_cons.mp hx with rfl | hx
      · exact hfind
      · exact absurd hpx (List.countP_eq_zero.mp h0 x hx)
    · rw [List.find?_cons_of_neg _ (by simp [hy])] at hfind
      have h1 : rest.countP p = 1 := by
        rw [List.countP_cons, if_neg hy] at hcount
        omega
      intro x hx hpx
      rcases List.mem_cons.mp hx with rfl | hx
      · exact absurd hpx hy
      · exact eq_find?_of_countP_one p rest e h1 hfind x hx hpx

theorem coreInvariant_ensureCoreEnvelopes (s : BudgetState) :
    coreInvariant (ensureCoreEnvelopes s).envelopes := by
  have hI := fixCore_countI s.envelopes
  have hO := fixCore_countO s.envelopes
  obtain ⟨eI, heI, hI0, hI1⟩ := fixCore_goodI s.envelopes
  obtain ⟨eO, heO, hO0, hO1⟩ := fixCore_goodO s.envelopes
  refine ⟨hI, hO, ?_⟩
  intro x hx hflag
  rcases hflag with hInc | hOvf
  · have hxe : x = eI :=
      eq_find?_of_countP_one _ (fixCoreEnvelopes s.envelopes) eI hI heI x hx hInc
    exact hxe ▸ ⟨hI1, hI0⟩
  · have hxe : x = eO :=
      eq_find?_of_countP_one _ (fixCoreEnvelopes s.envelopes) eO hO heO x hx hOvf
    exact hxe ▸ ⟨hO1, hO0⟩

theorem exists_noncore_addToBalanceFirst (j eid : String) (d : Int) (l : List Envelope)
    (h : ∃ e, l.find? (fun x => x.id == eid) = some e ∧ isCoreEnvelope e = false) :
    ∃ e2, (addToBalanceFirst j d l).find? (fun x => x.id == eid) = some e2 ∧
      isCoreEnvelope e2 = false := by
  obtain ⟨e, he, hc⟩ := h
  by_cases hj : eid = j
  · subst hj
    rw [find?_addToBalanceFirst_same, he, Option.map_some']
    exact ⟨_, rfl, hc⟩
  · rw [find?_addToBalanceFirst_other j eid d l hj]
    exact ⟨e, he, hc⟩

theorem exists_noncore_applyOptId (oid : Option String) (eid : String) (d : Int)
    (l : List Envelope)
    (h : ∃ e, l.find? (fun x => x.id == eid) = some e ∧ isCoreEnvelope e = false) :
    ∃ e2, (applyOptId oid d l).find? (fun x => x.id == eid) = some e2 ∧
      isCoreEnvelope e2 = false := by
  cases oid with
  | none => exact h
  | some j => exact exists_noncore_addToBalanceFirst j eid d l h

theorem exists_noncore_apply (tx : Transaction) (dir : Int) (eid : String)
    (l : List Envelope)
    (h : ∃ e, l.find? (fun x => x.id == eid) = some e ∧ isCoreEnvelope e = false) :
    ∃ e2, (applyTransactionToBalances tx dir l).find? (fun x => x.id == eid) = some e2 ∧
      isCoreEnvelope e2 = false :=
  exists_noncore_applyOptId _ eid _ _ (exists_noncore_applyOptId _ eid _ _ h)

theorem coreInvariant_deactivateFirst (eid : String) (l : List Envelope) (e : Envelope)
    (hfind : l.find? (fun x => x.id == eid) = some e) (hcore : isCoreEnvelope e = false)
    (h : coreInvariant l) :
    coreInvariant (modifyFirstEnv eid (fun x => { x with isActive := false }) l) := by
  obtain ⟨h1, h2, h3⟩ := h
  refine ⟨?_, ?_, ?_⟩
  · rw [countP_modifyFirstEnv eid (fun x => { x with isActive := false })
      (fun e => e.isIncome) l (fun x => rfl)]
    exact h1
  · rw [countP_modifyFirstEnv eid (fun x => { x with isActive := false })
      (fun e => e.isOverflow) l (fun x => rfl)]
    exact h2
  · intro x hx
    rcases mem_modifyFirstEnv eid _ l x hx with hx | ⟨e2, he2, rfl⟩
    · exact h3 x hx
    · have he2e : e2 = e := Option.some.inj (he2.symm.trans hfind)
      subst he2e
      intro hflag
      simp only [isCoreEnvelope, Bool.or_eq_false_iff] at hcore
      rcases hflag with hflag | hflag
      · exact absurd hflag (by simp [hcore.1])
      · exact absurd hflag (by simp [hcore.2])

theorem coreInvariant_deleteEnvelope (eid : String) (confirmed : Bool) (txid ts : String)
    (s : BudgetState) (h : coreInvariant s.envelopes) :
    coreInvariant (deleteEnvelope eid confirmed txid ts s).envelopes := by
  cases hfind : s.envelopes.find? (fun e => e.id == eid) with
  | none => simp only [deleteEnvelope, hfind]; exact h
  | some env =>
    by_cases hcore : isCoreEnvelope env
    · simp only [deleteEnvelope, hfind, if_pos hcore]; exact h
    · cases hinc : s.envelopes.find? (fun e => e.isIncome) with
      | none => simp only [deleteEnvelope, hfind, if_neg hcore, hinc]; exact h
      | some income =>
        by_cases hgate : env.balanceCents ≠ 0 ∧ confirmed = false
        · simp only [deleteEnvelope, hfind, if_neg hcore, hinc, if_pos hgate]; exact h
        · simp only [deleteEnvelope, hfind, if_neg hcore, hinc, if_neg hgate]
          by_cases hbal : env.balanceCents ≠ 0
          · simp only [if_pos hbal]
            simp only [addTransaction, if_neg hbal, if_true]
            obtain ⟨e2, he2, hc2⟩ := exists_noncore_apply _ 1 eid s.envelopes
              ⟨env, hfind, by simpa using hcore⟩
            exact coreInvariant_deactivateFirst eid _ e2 he2 hc2
              (coreInvariant_apply _ 1 _ h)
          · simp only [if_neg hbal]
            exact coreInvariant_deactivateFirst eid _ env hfind (by simpa using hcore) h

theorem coreInvariant_updateEnvelope (eid : String) (p : EnvPatch)
    (hpI : p.isIncome = none) (hpO : p.isOverflow = none) (s : BudgetState)
    (h : coreInvariant s.envelopes) :
    coreInvariant (updateEnvelope eid p s).envelopes := by
  refine coreInvariant_modifyFirstEnv eid _ _ (fun e => ?_) (fun e => ?_)
    (fun e hg => ?_) h
  · simp [applyEnvPatch, hpI]
  · simp [applyEnvPatch, hpO]
  · intro hflag
    have hflag2 : e.isIncome = true ∨ e.isOverflow = true := by
      simpa [applyEnvPatch, hpI, hpO] using hflag
    have hcoree : isCoreEnvelope e = true := by
      rcases hflag2 with hh | hh <;> simp [isCoreEnvelope, hh]
    have hg2 := hg hflag2
    constructor
    · simp [applyEnvPatch, hcoree, hg2.1]
    · simp [applyEnvPatch, hcoree, hg2.2]

theorem coreInvariant_addEnvelope (name : String) (targetCents : Int)
    (fCard fActive : Bool) (newId : String) (s : BudgetState)
    (h : coreInvariant s.envelopes) :
    coreInvariant (addEnvelope name targetCents false false fCard fActive newId s).envelopes := by
  by_cases hn : name = ""
  · simp only [addEnvelope, if_pos hn]; exact h
  · simp only [addEnvelope, if_neg hn]
    obtain ⟨h1, h2, h3⟩ := h
    refine ⟨?_, ?_, ?_⟩
    · rw [List.countP_append]
      simp [List.countP_cons, h1]
    · rw [List.countP_append]
      simp [List.countP_cons, h2]
    · intro x hx
      rcases List.mem_append.mp hx with hx | hx
      · exact h3 x hx
      · simp only [List.mem_singleton] at hx
        subst hx
        intro hflag
        simp at hflag

theorem coreInvariant_updateTransaction (tid : String) (p : TxPatch) (s : BudgetState)
    (h : coreInvariant s.envelopes) :
    coreInvariant (updateTransaction tid p s).envelopes := by
  cases hf : s.transactions.find? (fun t => t.id == tid) with
  | none => simp only [updateTransaction, hf]; exact h
  | some oldTx =>
    simp only [updateTransaction, hf]
    exact coreInvariant_apply _ 1 _ (coreInvariant_apply _ (-1) _ h)

theorem coreInvariant_deleteTransaction (tid : String) (s : BudgetState)
    (h : coreInvariant s.envelopes) :
    coreInvariant (deleteTransaction tid s).envelopes := by
  cases hf : s.transactions.find? (fun t => t.id == tid) with
  | none => simp only [deleteTransaction, hf]; exact h
  | some tx =>
    simp only [deleteTransaction, hf]
    exact coreInvariant_apply _ (-1) _
      (coreInvariant_reactivateOpt _ _ (coreInvariant_reactivateOpt _ _ h))

theorem coreInvariant_autoAllocate (confirmed : Bool) (s : BudgetState)
    (h : coreInvariant s.envelopes) :
    coreInvariant (autoAllocate confirmed s).envelopes := by
  cases hinc : s.envelopes.find? (fun e => e.isIncome) with
  | none => simp only [autoAllocate, hinc]; exact h
  | some income =>
    simp only [autoAllocate, hinc]
    by_cases ht : s.envelopes.filter eligibleTarget = []
    · simp only [if_pos ht]; exact h
    · simp only [if_neg ht]
      by_cases hc : confirmed
      · simp only [if_pos hc]
        have hfold : ∀ (ts : List Envelope) (st : BudgetState), coreInvariant st.envelopes →
            coreInvariant ((ts.foldl (fun acc env =>
              addTransaction (some income.id) (some env.id) env.targetCents
                "Auto allocation" false "" "" acc) st)).envelopes := by
          intro ts
          induction ts with
          | nil => intro st hst; exact hst
          | cons t rest ih =>
            intro st hst
            exact ih _ (coreInvariant_addTransaction _ _ _ _ _ _ _ st hst)
        exact hfold _ s h
      · simp only [if_neg hc]; exact h

theorem coreInvariant_pruneOldTransactions (cutoffFor : Int → String) (s : BudgetState)
    (h : coreInvariant s.envelopes) :
    coreInvariant (pruneOldTransactions cutoffFor s).envelopes := h

theorem coreInvariant_cleanupUnusedEnvelopes (s : BudgetState)
    (h : coreInvariant s.envelopes) :
    coreInvariant (cleanupUnusedEnvelopes s).envelopes := by
  obtain ⟨h1, h2, h3⟩ := h
  simp only [cleanupUnusedEnvelopes]
  refine ⟨?_, ?_, ?_⟩
  · rw [countP_filter_of_imp _ _ _
      (fun e he hq => by simp [keepEnvelope, isCoreEnvelope, hq])]
    exact h1
  · rw [countP_filter_of_imp _ _ _
      (fun e he hq => by simp [keepEnvelope, isCoreEnvelope, hq])]
    exact h2
  · intro x hx
    exact h3 x (List.mem_of_mem_filter hx)

/-- C2 (amended): `ensureCoreEnvelopes` establishes the core invariant
(exactly one Income, exactly one Overflow, both active with target 0), and
the invariant is preserved by every public operation — `addEnvelope`
provided its flags do not set `isIncome`/`isOverflow` (the UI always calls
it so), `updateEnvelope` provided the patch does not set or clear
`isIncome`/`isOverflow`, and `deleteEnvelope`, `addTransaction`,
`updateTransaction`, `deleteTransaction`, `autoAllocate`,
`pruneOldTransactions` and `cleanupUnusedEnvelopes` unconditionally.  The
side conditions are necessary: `updateEnvelope` applies `isIncome` /
`isOverflow` patches unconditionally, and such a patch destroys the
invariant (see the counterexample). -/
theorem core_invariant_operations (s : BudgetState) :
    coreInvariant (ensureCoreEnvelopes s).envelopes ∧
    (∀ name targetCents fCard fActive newId, coreInvariant s.envelopes →
      coreInvariant (addEnvelope name targetCents false false fCard fActive newId s).envelopes) ∧
    (∀ eid (p : EnvPatch), p.isIncome = none → p.isOverflow = none →
      coreInvariant s.envelopes → coreInvariant (updateEnvelope eid p s).envelopes) ∧
    (∀ eid confirmed txid ts, coreInvariant s.envelopes →
      coreInvariant (deleteEnvelope eid confirmed txid ts s).envelopes) ∧
    (∀ fromId toId amountCents note log txid ts, coreInvariant s.envelopes →
      coreInvariant (addTransaction fromId toId amountCents note log txid ts s).envelopes) ∧
    (∀ tid (p : TxPatch), coreInvariant s.envelopes →
      coreInvariant (updateTransaction tid p s).envelopes) ∧
    (∀ tid, coreInvariant s.envelopes →
      coreInvariant (deleteTransaction tid s).envelopes) ∧
    (∀ confirmed, coreInvariant s.envelopes →
      coreInvariant (autoAllocate confirmed s).envelopes) ∧
    (∀ cutoffFor, coreInvariant s.envelopes →
      coreInvariant (pruneOldTransactions cutoffFor s).envelopes) ∧
    (coreInvariant s.envelopes → coreInvariant (cleanupUnusedEnvelopes s).envelopes) := by
  refine ⟨coreInvariant_ensureCoreEnvelopes s, ?_, ?_, ?_, ?_, ?_, ?_, ?_, ?_, ?_⟩
  · intro name targetCents fCard fActive newId h
    exact coreInvariant_addEnvelope name targetCents fCard fActive newId s h
  · intro eid p hpI hpO h
    exact coreInvariant_updateEnvelope eid p hpI hpO s h
  · intro eid confirmed txid ts h
    exact coreInvariant_deleteEnvelope eid confirmed txid ts s h
  · intro fromId toId amountCents note log txid ts h
    exact coreInvariant_addTransaction fromId toId amountCents note log txid ts s h
  · intro tid p h
    exact coreInvariant_updateTransaction tid p s h
  · intro tid h
    exact coreInvariant_deleteTransaction tid s h
  · intro confirmed h
    exact coreInvariant_autoAllocate confirmed s h
  · intro cutoffFor h
    exact coreInvariant_pruneOldTransactions cutoffFor s h
  · intro h
    exact coreInvariant_cleanupUnusedEnvelopes s h

/-- Concrete state satisfying the core invariant for the C2 counterexample
and witness. -/
def stateW2 : BudgetState :=
  { envelopes := [incomeFresh, overflowFresh], transactions := [],
    bankBalanceCents := 0, transactionRetentionDays := 30 }

/-- Patch clearing the `isIncome` flag, as `updateEnvelope` accepts it. -/
def patchW2 : EnvPatch :=
  { name := none, targetCents := none, isIncome := some false, isOverflow := none,
    isCreditCard := none, isActive := none }

/-- C2 counterexample: on a state satisfying the invariant,
`updateEnvelope` with a patch that clears `isIncome` on the Income envelope
leaves zero Income envelopes, so the public operation `updateEnvelope` does
not preserve the invariant as the claim states. -/
theorem updateEnvelope_breaks_core_invariant :
    coreInvariant stateW2.envelopes ∧
    ¬ coreInvariant (updateEnvelope "env_income" patchW2 stateW2).envelopes := by
  constructor
  · refine ⟨by decide, by decide, ?_⟩
    decide
  · intro h
    have h1 := h.1
    revert h1
    decide

theorem core_invariant_operations_witness :
    coreInvariant (deleteTransaction "t1" stateW2).envelopes :=
  (core_invariant_operations stateW2).2.2.2.2.2.2.1 "t1"
    ⟨by decide, by decide, by decide⟩

theorem mem_replaceFirstTx (tid : String) (newTx : Transaction) (l : List Transaction)
    (t : Transaction) (ht : t ∈ replaceFirstTx tid newTx l) : t ∈ l ∨ t = newTx := by
  induction l with
  | nil => simp [replaceFirstTx] at ht
  | cons x rest ih =>
    by_cases hx : x.id = tid
    · rw [replaceFirstTx, if_pos hx] at ht
      rcases List.mem_cons.mp ht with rfl | ht
      · exact Or.inr rfl
      · exact Or.inl (List.mem_cons_of_mem x ht)
    · rw [replaceFirstTx, if_neg hx] at ht
      rcases List.mem_cons.mp ht with rfl | ht
      · exact Or.inl (List.mem_cons.mpr (Or.inl rfl))
      · rcases ih ht with ht | ht
        · exact Or.inl (List.mem_cons_of_mem x ht)
        · exact Or.inr ht

theorem mem_removeFirstTx (tid : String) (l : List Transaction) (t : Transaction)
    (ht : t ∈ removeFirstTx tid l) : t ∈ l := by
  induction l with
  | nil => simp [removeFirstTx] at ht
  | cons x rest ih =>
    by_cases hx : x.id = tid
    · rw [removeFirstTx, if_pos hx] at ht
      exact List.mem_cons_of_mem x ht
    · rw [removeFirstTx, if_neg hx] at ht
      rcases List.mem_cons.mp ht with rfl | ht
      · exact List.mem_cons.mpr (Or.inl rfl)
      · exact List.mem_cons_of_mem x (ih ht)

theorem addTransaction_transactions_nolog (fromId toId : Option String)
    (amountCents : Int) (note : String) (txid ts : String) (s : BudgetState) :
    (addTransaction fromId toId amountCents note false txid ts s).transactions
      = s.transactions := by
  by_cases ha : amountCents = 0 <;> simp [addTransaction, ha]

theorem autoAllocate_transactions (confirmed : Bool) (s : BudgetState) :
    (autoAllocate confirmed s).transactions = s.transactions := by
  cases hinc : s.envelopes.find? (fun e => e.isIncome) with
  | none => simp only [autoAllocate, hinc]
  | some income =>
    simp only [autoAllocate, hinc]
    by_cases ht : s.envelopes.filter eligibleTarget = []
    · simp only [if_pos ht]
    · simp only [if_neg ht]
      by_cases hc : confirmed
      · simp only [if_pos hc]
        have hfold : ∀ (ts0 : List Envelope) (st : BudgetState),
            ((ts0.foldl (fun acc env =>
              addTransaction (some income.id) (some env.id) env.targetCents
                "Auto allocation" false "" "" acc) st)).transactions
              = st.transactions := by
          intro ts0
          induction ts0 with
          | nil => intro st; rfl
          | cons t rest ih =>
            intro st
            rw [List.foldl_cons, ih, addTransaction_transactions_nolog]
        exact hfold _ s
      · simp only [if_neg hc]

/-- C3 (amended): `addTransaction` aborts with no state change when the
converted amount is 0, and stores a positive amount whenever its input
converts to a positive amount; `updateTransaction` preserves positivity of
every stored `amountCents` provided its patch amount, when present,
converts to a positive value; `deleteEnvelope` preserves positivity
provided the deleted envelope's balance is nonnegative; `deleteTransaction`
always preserves positivity.  The side conditions are necessary:
`updateTransaction` has no zero-amount guard at all (see the
counterexample), `addTransaction` accepts negative converted amounts
(`if (!amountCents)` only rejects 0), and `deleteEnvelope` stores the
signed balance of the deleted envelope. -/
theorem amounts_positive_spec (s : BudgetState) :
    (∀ fromId toId note log txid ts,
      addTransaction fromId toId 0 note log txid ts s = s) ∧
    (∀ fromId toId amountCents note log txid ts,
      (∀ t ∈ s.transactions, 0 < t.amountCents) → 0 < amountCents →
      ∀ t ∈ (addTransaction fromId toId amountCents note log txid ts s).transactions,
        0 < t.amountCents) ∧
    (∀ tid (p : TxPatch),
      (∀ t ∈ s.transactions, 0 < t.amountCents) →
      (p.amountCents = none ∨ ∃ a, p.amountCents = some a ∧ 0 < a) →
      ∀ t ∈ (updateTransaction tid p s).transactions, 0 < t.amountCents) ∧
    (∀ eid confirmed txid ts,
      (∀ t ∈ s.transactions, 0 < t.amountCents) →
      (∀ e ∈ s.envelopes, e.id = eid → 0 ≤ e.balanceCents) →
      ∀ t ∈ (deleteEnvelope eid confirmed txid ts s).transactions, 0 < t.amountCents) ∧
    (∀ tid, (∀ t ∈ s.transactions, 0 < t.amountCents) →
      ∀ t ∈ (deleteTransaction tid s).transactions, 0 < t.amountCents) := by
  refine ⟨?_, ?_, ?_, ?_, ?_⟩
  · intro fromId toId note log txid ts
    simp [addTransaction]
  · intro fromId toId amountCents note log txid ts hall hpos t ht
    rw [addTransaction, if_neg (by omega)] at ht
    by_cases hl : log
    · simp only [if_pos hl] at ht
      rcases List.mem_append.mp ht with ht | ht
      · exact hall t ht
      · simp only [List.mem_singleton] at ht
        subst ht
        exact hpos
    · simp only [if_neg hl] at ht
      exact hall t ht
  · intro tid p hall hpatch t ht
    cases hf : s.transactions.find? (fun t2 => t2.id == tid) with
    | none =>
      simp only [updateTransaction, hf] at ht
      exact hall t ht
    | some oldTx =>
      simp only [updateTransaction, hf] at ht
      rcases mem_replaceFirstTx _ _ _ t ht with ht | rfl
      · exact hall t ht
      · show 0 < p.amountCents.getD oldTx.amountCents
        rcases hpatch with hnone | ⟨a, ha, hapos⟩
        · rw [hnone, Option.getD_none]
          exact hall oldTx (List.mem_of_find?_eq_some hf)
        · rw [ha, Option.getD_some]
          exact hapos
  · intro eid confirmed txid ts hall hbalpos t ht
    cases hfind : s.envelopes.find? (fun e => e.id == eid) with
    | none =>
      simp only [deleteEnvelope, hfind] at ht
      exact hall t ht
    | some env =>
      by_cases hcore : isCoreEnvelope env
      · simp only [deleteEnvelope, hfind, if_pos hcore] at ht
        exact hall t ht
      · cases hinc : s.envelopes.find? (fun e => e.isIncome) with
        | none =>
          simp only [deleteEnvelope, hfind, if_neg hcore, hinc] at ht
          exact hall t ht
        | some income =>
          by_cases hgate : env.balanceCents ≠ 0 ∧ confirmed = false
          · simp only [deleteEnvelope, hfind, if_neg hcore, hinc, if_pos hgate] at ht
            exact hall t ht
          · simp only [deleteEnvelope, hfind, if_neg hcore, hinc, if_neg hgate] at ht
            by_cases hbal : env.balanceCents ≠ 0
            · simp only [if_pos hbal, addTransaction, if_neg hbal, if_true] at ht
              rcases List.mem_append.mp ht with ht | ht
              · exact hall t ht
              · simp only [List.mem_singleton] at ht
                subst ht
                have henvid : env.id = eid := by simpa using List.find?_some hfind
                have h0 := hbalpos env (List.mem_of_find?_eq_some hfind) henvid
                show 0 < env.balanceCents
                omega
            · simp only [if_neg hbal] at ht
              exact hall t ht
  · intro tid hall t ht
    cases hf : s.transactions.find? (fun t2 => t2.id == tid) with
    | none =>
      simp only [deleteTransaction, hf] at ht
      exact hall t ht
    | some tx =>
      simp only [deleteTransaction, hf] at ht
      exact hall t (mem_removeFirstTx tid s.transactions t ht)

/-- Concrete transaction with positive amount for the C3 state. -/
def txW3 : Transaction :=
  { id := "t1", timestamp := "2026-01-01T00:00:00.000Z", fromEnvelopeId := none,
    toEnvelopeId := some "inc", amountCents := 100, note := "" }

/-- Concrete state for the C3 counterexample and witness. -/
def stateW3 : BudgetState :=
  { envelopes := [], transactions := [txW3], bankBalanceCents := 0,
    transactionRetentionDays := 30 }

/-- Patch whose `amountDollars` converts to 0 cents. -/
def patchW3 : TxPatch :=
  { fromEnvelopeId := none, toEnvelopeId := none, amountCents := some 0, note := none }

/-- C3 counterexample: `updateTransaction` with a zero-amount patch stores
a transaction whose `amountCents` is 0 — the stored list after the call is
exactly one transaction of amount 0, refuting the claim that no operation
ever stores a zero-or-negative `amountCents`. -/
theorem updateTransaction_zero_counterexample :
    ((updateTransaction "t1" patchW3 stateW3).transactions.map
      (fun t => t.amountCents)) = [0] := by
  decide

theorem amounts_positive_spec_witness :
    (0 : Int) <
      (Transaction.mk "t9" "ts" none (some "inc") 250 "x").amountCents :=
  (amounts_positive_spec stateW3).2.1 none (some "inc") 250 "x" true "t9" "ts"
    (by decide) (by decide)
    (Transaction.mk "t9" "ts" none (some "inc") 250 "x") (by decide)

theorem map_eq_self_of_eq {α : Type} (f : α → α) (l : List α)
    (h : ∀ x ∈ l, f x = x) : l.map f = l := by
  induction l with
  | nil => rfl
  | cons x rest ih =>
    rw [List.map_cons, h x (List.mem_cons_self x rest),
      ih (fun y hy => h y (List.mem_cons_of_mem x hy))]

theorem map_map_id_proj (f : Envelope → Envelope) (hf : ∀ e, (f e).id = e.id)
    (l : List Envelope) :
    (l.map f).map (fun e => e.id) = l.map (fun e => e.id) := by
  induction l with
  | nil => rfl
  | cons x rest ih => rw [List.map_cons, List.map_cons, List.map_cons, hf, ih]

theorem addIf_id (eid : String) (d : Int) (e : Envelope) :
    ((if e.id = eid then { e with balanceCents := e.balanceCents + d } else e) :
      Envelope).id = e.id := by
  by_cases h : e.id = eid <;> simp [h]

theorem addToBalanceFirst_eq_map (eid : String) (d : Int) (l : List Envelope)
    (h : (l.map (fun e => e.id)).Nodup) :
    addToBalanceFirst eid d l
      = l.map (fun e =>
          if e.id = eid then { e with balanceCents := e.balanceCents + d } else e) := by
  induction l with
  | nil => rfl
  | cons x rest ih =>
    rw [List.map_cons, List.nodup_cons] at h
    by_cases hx : x.id = eid
    · rw [addToBalanceFirst, modifyFirstEnv_cons, if_pos hx, List.map_cons, if_pos hx]
      have hrest : rest.map (fun e =>
          if e.id = eid then { e with balanceCents := e.balanceCents + d } else e) = rest := by
        refine map_eq_self_of_eq _ rest (fun y hy => ?_)
        have hyne : y.id ≠ eid := by
          intro hc
          exact h.1 (hx ▸ hc ▸ List.mem_map_of_mem (fun e => e.id) hy)
        rw [if_neg hyne]
      rw [hrest]
    · rw [addToBalanceFirst, modifyFirstEnv_cons, if_neg hx, List.map_cons, if_neg hx]
      rw [← addToBalanceFirst, ih h.2]

/-- Per-envelope balance delta of the auto-allocation loop over the target
list `ts`, income envelope id `iid`: each step subtracts the step target
from the income envelope and adds it to the target envelope. -/
def allocDelta (iid eid : String) : List Envelope → Int
  | [] => 0
  | t :: ts =>
    (if eid = iid then -t.targetCents else 0) +
      ((if eid = t.id then t.targetCents else 0) + allocDelta iid eid ts)

/-- One envelope-level step of the auto-allocation loop: subtract the
target from the income envelope (first match on `iid`), then add it to the
target envelope (first match on its id), exactly as
`applyTransactionToBalances` with direction +1 does inside the unlogged
`addTransaction` call of `autoAllocate`. -/
def allocStepEnv (iid : String) (t : Envelope) (envs : List Envelope) : List Envelope :=
  addToBalanceFirst t.id (1 * t.targetCents)
    (addToBalanceFirst iid (-(1 * t.targetCents)) envs)

theorem allocStepEnv_ids (iid : String) (t : Envelope) (envs : List Envelope) :
    (allocStepEnv iid t envs).map (fun e => e.id) = envs.map (fun e => e.id) := by
  unfold allocStepEnv addToBalanceFirst
  rw [map_proj_modifyFirstEnv t.id
      (fun e => { e with balanceCents := e.balanceCents + 1 * t.targetCents })
      (fun e => e.id) (fun e => rfl),
    map_proj_modifyFirstEnv iid
      (fun e => { e with balanceCents := e.balanceCents + -(1 * t.targetCents) })
      (fun e => e.id) (fun e => rfl)]

theorem allocStepEnv_eq_map (iid : String) (t : Envelope) (l : List Envelope)
    (h : (l.map (fun e => e.id)).Nodup) :
    allocStepEnv iid t l
      = l.map (fun e =>
          { e with balanceCents := e.balanceCents +
              ((if e.id = iid then -t.targetCents else 0) +
               (if e.id = t.id then t.targetCents else 0)) }) := by
  unfold allocStepEnv
  rw [addToBalanceFirst_eq_map iid _ l h,
    addToBalanceFirst_eq_map t.id _ _
      (by rw [map_map_id_proj _ (addIf_id iid _)]; exact h),
    List.map_map]
  refine congrArg (fun f => List.map f l) (funext fun e => ?_)
  by_cases h1 : e.id = iid <;> by_cases h2 : e.id = t.id <;> by_cases h3 : iid = t.id <;>
    simp_all [Envelope.mk.injEq] <;> omega

theorem allocLoop_eq_map (iid : String) :
    ∀ (ts envs : List Envelope), (envs.map (fun e => e.id)).Nodup →
    ts.foldl (fun acc t => allocStepEnv iid t acc) envs
      = envs.map (fun e =>
          { e with balanceCents := e.balanceCents + allocDelta iid e.id ts })
  | [], envs, h => by
    rw [List.foldl_nil]
    symm
    refine map_eq_self_of_eq _ envs (fun e he => ?_)
    show ({ e with balanceCents := e.balanceCents + allocDelta iid e.id [] } : Envelope) = e
    cases e with
    | mk i n tc b ii io ic ia => simp [allocDelta]
  | t :: ts, envs, h => by
    rw [List.foldl_cons,
      allocLoop_eq_map iid ts (allocStepEnv iid t envs)
        (by rw [allocStepEnv_ids]; exact h),
      allocStepEnv_eq_map iid t envs h, List.map_map]
    refine congrArg (fun f => List.map f envs) (funext fun e => ?_)
    by_cases h1 : e.id = iid <;> by_cases h2 : e.id = t.id <;> by_cases h3 : iid = t.id <;>
      simp_all [allocDelta, Envelope.mk.injEq] <;> omega

theorem allocFold_envelopes (iid : String) :
    ∀ (ts : List Envelope) (st : BudgetState), (∀ t ∈ ts, t.targetCents ≠ 0) →
    ((ts.foldl (fun acc env =>
        addTransaction (some iid) (some env.id) env.targetCents
          "Auto allocation" false "" "" acc) st)).envelopes
      = ts.foldl (fun acc t => allocStepEnv iid t acc) st.envelopes
  | [], st, h => rfl
  | t :: ts, st, h => by
    rw [List.foldl_cons, List.foldl_cons]
    have ht : t.targetCents ≠ 0 := h t (List.mem_cons_self t ts)
    have hrest : ∀ x ∈ ts, x.targetCents ≠ 0 :=
      fun x hx => h x (List.mem_cons_of_mem t hx)
    rw [allocFold_envelopes iid ts _ hrest]
    congr 1
    simp only [addTransaction, if_neg ht]
    unfold applyTransactionToBalances allocStepEnv
    simp only [applyOptId_some]

theorem allocDelta_eq (iid eid : String) :
    ∀ ts : List Envelope,
    allocDelta iid eid ts
      = (if eid = iid then -((ts.map (fun t => t.targetCents)).sum) else 0)
        + ((ts.filter (fun t => t.id == eid)).map (fun t => t.targetCents)).sum
  | [] => by by_cases h : eid = iid <;> simp [allocDelta, h]
  | t :: ts => by
    rw [allocDelta, allocDelta_eq iid eid ts, List.filter_cons]
    by_cases h1 : eid = iid
    · subst h1
      by_cases h2 : t.id = eid
      · rw [h2]
        simp only [List.map_cons, List.sum_cons, if_pos rfl, beq_self_eq_true, if_true]
        ring
      · rw [if_pos (show eid = eid from rfl), if_pos (show eid = eid from rfl),
          if_neg (show ¬ eid = t.id from fun hc => h2 hc.symm),
          if_neg (show ¬ (t.id == eid) = true by simp [h2])]
        simp only [List.map_cons, List.sum_cons, if_true]
        ring
    · by_cases h2 : t.id = eid
      · rw [h2]
        simp only [List.map_cons, List.sum_cons, if_neg h1, beq_self_eq_true, if_true,
          if_pos rfl]
        ring
      · simp only [if_neg h1,
          if_neg (show ¬ eid = t.id from fun hc => h2 hc.symm),
          if_neg (show ¬ (t.id == eid) = true by simp [h2])]
        ring

theorem filter_id_nil_of_not_mem (l : List Envelope) (i : String)
    (h : ∀ y ∈ l, y.id ≠ i) : l.filter (fun x => x.id == i) = [] := by
  induction l with
  | nil => rfl
  | cons x rest ih =>
    rw [List.filter_cons, if_neg (by simp [h x (List.mem_cons_self x rest)])]
    exact ih (fun y hy => h y (List.mem_cons_of_mem x hy))

theorem filter_eligible_id :
    ∀ (l : List Envelope) (e : Envelope), ((l.map (fun x => x.id)).Nodup) → e ∈ l →
    (l.filter eligibleTarget).filter (fun t => t.id == e.id)
      = if eligibleTarget e then [e] else []
  | [], e, h, he => by simp at he
  | x :: rest, e, h, he => by
    rw [List.map_cons, List.nodup_cons] at h
    rcases List.mem_cons.mp he with rfl | he2
    · have hrest : ∀ y ∈ rest, y.id ≠ e.id := by
        intro y hy hc
        exact h.1 (hc ▸ List.mem_map_of_mem (fun z => z.id) hy)
      by_cases helig : eligibleTarget e
      · rw [List.filter_cons, if_pos helig, List.filter_cons, if_pos (by simp),
          if_pos helig]
        rw [filter_id_nil_of_not_mem _ _
          (fun y hy => hrest y (List.mem_of_mem_filter hy))]
      · rw [List.filter_cons, if_neg (by simp [helig]), if_neg helig]
        exact filter_id_nil_of_not_mem _ _
          (fun y hy => hrest y (List.mem_of_mem_filter hy))
    · have hxe : x.id ≠ e.id := by
        intro hc
        exact h.1 (hc ▸ List.mem_map_of_mem (fun z => z.id) he2)
      by_cases helig : eligibleTarget x
      · rw [List.filter_cons, if_pos helig, List.filter_cons, if_neg (by simp [hxe])]
        exact filter_eligible_id rest e h.2 he2
      · rw [List.filter_cons, if_neg (by simp [helig])]
        exact filter_eligible_id rest e h.2 he2

/-- C6: for every state whose envelope ids are pairwise distinct (ids are
unique identifiers in the data model), with an Income envelope present and
a non-empty selection of eligible targets (active, non-core, non-card,
positive target), `autoAllocate` with the confirmation granted leaves the
transaction list unchanged (no history entry), and updates balances
pointwise: the Income envelope (never itself eligible) decreases by the sum
of the selection's `targetCents`, each eligible envelope increases by its
own `targetCents`, and every other envelope is unchanged. -/
theorem autoAllocate_spec (s : BudgetState) (income : Envelope)
    (hids : (s.envelopes.map (fun e => e.id)).Nodup)
    (hinc : s.envelopes.find? (fun e => e.isIncome) = some income)
    (hne : s.envelopes.filter eligibleTarget ≠ []) :
    (autoAllocate true s).transactions = s.transactions ∧
    eligibleTarget income = false ∧
    (autoAllocate true s).envelopes = s.envelopes.map (fun e =>
      { e with balanceCents := e.balanceCents +
          ((if e.id = income.id then
              -(((s.envelopes.filter eligibleTarget).map (fun t => t.targetCents)).sum)
            else 0) +
           (if eligibleTarget e then e.targetCents else 0)) }) := by
  have hIncFlag : income.isIncome = true := by simpa using List.find?_some hinc
  have hNoElig : eligibleTarget income = false := by
    simp [eligibleTarget, isCoreEnvelope, hIncFlag]
  refine ⟨autoAllocate_transactions true s, hNoElig, ?_⟩
  have hnz : ∀ t ∈ s.envelopes.filter eligibleTarget, t.targetCents ≠ 0 := by
    intro t ht
    have := List.of_mem_filter ht
    simp only [eligibleTarget, Bool.and_eq_true, decide_eq_true_eq] at this
    omega
  simp only [autoAllocate, hinc, if_neg hne, if_true]
  rw [allocFold_envelopes income.id (s.envelopes.filter eligibleTarget) s hnz]
  rw [allocLoop_eq_map income.id (s.envelopes.filter eligibleTarget) s.envelopes hids]
  refine List.map_congr_left (fun e he => ?_)
  rw [allocDelta_eq income.id e.id (s.envelopes.filter eligibleTarget)]
  rw [filter_eligible_id s.envelopes e hids he]
  by_cases helig : eligibleTarget e <;> simp [helig]

/-- Concrete Income envelope for the C6 witness. -/
def incomeW6 : Envelope :=
  { id := "inc", name := "Income", targetCents := 0, balanceCents := 10000,
    isIncome := true, isOverflow := false, isCreditCard := false, isActive := true }

/-- Concrete eligible target envelope for the C6 witness. -/
def envGrocW6 : Envelope :=
  { id := "g", name := "Groceries", targetCents := 5000, balanceCents := 0,
    isIncome := false, isOverflow := false, isCreditCard := false, isActive := true }

/-- Concrete state for the C6 witness. -/
def stateW6 : BudgetState :=
  { envelopes := [incomeW6, envGrocW6], transactions := [], bankBalanceCents := 0,
    transactionRetentionDays := 30 }

theorem autoAllocate_spec_witness :
    (autoAllocate true stateW6).transactions = stateW6.transactions ∧
    eligibleTarget incomeW6 = false ∧
    (autoAllocate true stateW6).envelopes = stateW6.envelopes.map (fun e =>
      { e with balanceCents := e.balanceCents +
          ((if e.id = incomeW6.id then
              -(((stateW6.envelopes.filter eligibleTarget).map
                  (fun t => t.targetCents)).sum)
            else 0) +
           (if eligibleTarget e then e.targetCents else 0)) }) :=
  autoAllocate_spec stateW6 incomeW6 (by decide) (by decide) (by decide)

/-- The aggregate `getTotalAllocationsCents` of src/app.js.  The source
filters on `!env.isCore && !env.isCredit && env.targetCents > 0`; the
`Envelope` class has no `isCore` or `isCredit` property (its flags are
`isIncome`, `isOverflow`, `isCreditCard`, `isActive`), so in JS both
accesses yield `undefined`, both negations are always true, and no
`isActive` test occurs at all: the effective filter is `targetCents > 0`
alone. -/
def getTotalAllocationsCents (s : BudgetState) : Int :=
  ((s.envelopes.filter (fun env => decide (0 < env.targetCents))).map
    (fun env => env.targetCents)).sum

/-- The total described by the spec, following its words: the sum of
`targetCents` over exactly the eligible envelopes — active, non-core,
non-card, positive target (the same selection `autoAllocate` uses) —
stated for comparison with `getTotalAllocationsCents`. -/
def getTotalAllocationsCentsSpec (s : BudgetState) : Int :=
  ((s.envelopes.filter eligibleTarget).map (fun env => env.targetCents)).sum

/-- Concrete envelope that is an inactive credit card with a positive
target. -/
def envBugW10 : Envelope :=
  { id := "c", name := "Card", targetCents := 500, balanceCents := 0,
    isIncome := false, isOverflow := false, isCreditCard := true, isActive := false }

/-- Concrete state exhibiting the C10 bug. -/
def stateW10 : BudgetState :=
  { envelopes := [envBugW10], transactions := [], bankBalanceCents := 0,
    transactionRetentionDays := 30 }

/-- C10 (code bug): the code comments say Income/Overflow and credit cards
are excluded, and the spec's eligible set is active, non-core, non-card,
positive-target envelopes; but on a state whose only envelope is an
inactive credit card with `targetCents = 500`, the code returns 500 (its
`isCore`/`isCredit` property accesses are `undefined`, so nothing but
`targetCents > 0` is tested) while the eligible total is 0. -/
theorem getTotalAllocationsCents_bug :
    getTotalAllocationsCents stateW10 = 500 ∧
    getTotalAllocationsCentsSpec stateW10 = 0 := by
  constructor <;> decide
